import Mathlib

/-!
Verification of the audio-to-notation analysis pipeline (`pitchDetection.js`).

The JavaScript source is shallowly embedded: every method of the
`PitchDetection` class becomes a Lean definition over lists of real-valued
samples.  JavaScript numbers are modelled as real numbers (`ℝ`) except where
a value is provably integral, in which case `ℕ`/`ℤ`/`ℚ` are used with the
JavaScript rounding conventions made explicit.
-/

namespace PitchDetection

/-- `Note` record returned by `frequencyToNote`:
`{ name, octave, frequency, cents }`. -/
structure Note where
  name : String
  octave : ℤ
  frequency : ℝ
  cents : ℤ

/-- `PitchSample` record pushed by `detectPitches`:
`{ frequency, note, startTime, endTime }`. -/
structure PitchSample where
  frequency : ℝ
  note : Note
  startTime : ℝ
  endTime : ℝ

/-- Entry of `generateSimpleNotes`: `{ note, octave, duration, startTime }`. -/
structure SimpleNote where
  note : String
  octave : ℤ
  duration : ℝ
  startTime : ℝ

/-- Chord record pushed by `detectChords`. -/
structure Chord where
  root : String
  type : String
  notes : List String
  startTime : ℝ
  endTime : ℝ
  duration : ℝ

/-- Sheet-music note record built by `generateSheetMusic`. -/
structure SheetMusicNote where
  pitch : String
  octave : ℤ
  duration : String
  startTime : ℝ

/-- `{ numerator, denominator }` time signature. -/
structure TimeSignature where
  numerator : ℕ
  denominator : ℕ

/-- Value returned by `generateSheetMusic`. -/
structure SheetMusic where
  notes : List SheetMusicNote
  timeSignature : TimeSignature
  clef : String

/-- Aggregate returned by `convertToMusicalNotation` / `analyzeAudio`. -/
structure TranscriptionResult where
  simpleNotes : List SimpleNote
  complexChords : List Chord
  sheetMusic : SheetMusic
  rawPitchData : List PitchSample

/-- The decoded PCM buffer handed to `analyzeAudio`: channel count, declared
length, and the per-channel sample arrays (`getChannelData`). -/
structure AudioBuffer where
  numberOfChannels : ℕ
  length : ℕ
  channels : List (List ℝ)

/-! ### Configuration constants (constructor fields) -/

/-- `this.sampleRate = 44100`. -/
def sampleRate : ℕ := 44100

/-- `this.bufferSize = 4096`. -/
def bufferSize : ℕ := 4096

/-- `this.minFrequency = 80` (Hz, integral). -/
def minFrequencyHz : ℕ := 80

/-- `this.maxFrequency = 1000` (Hz, integral). -/
def maxFrequencyHz : ℕ := 1000

/-- `result.root`/`result.type` pair returned by `identifyChord`. -/
structure ChordId where
  root : String
  type : String
deriving DecidableEq

/-- `this.chordDefinitions`, in JavaScript object-insertion order
(`Object.entries` iterates string keys in that order). -/
def chordDefinitions : List (String × List ℤ) :=
  [("Major", [0, 4, 7]),
   ("Minor", [0, 3, 7]),
   ("Diminished", [0, 3, 6]),
   ("Augmented", [0, 4, 8]),
   ("Major 7", [0, 4, 7, 11]),
   ("Dominant 7", [0, 4, 7, 10]),
   ("Minor 7", [0, 3, 7, 10]),
   ("Sus4", [0, 5, 7]),
   ("Sus2", [0, 2, 7])]

/-- The chromatic C-first name table used by `calculateInterval`
(`const notes = ['C', 'C#', …, 'B']`). -/
def chromaticScale : List String :=
  ["C", "C#", "D", "D#", "E", "F"] ++ ["F#", "G", "G#", "A", "A#", "B"]

/-- `calculateInterval(rootNote, noteName)`: semitone interval via `indexOf`
into `chromaticScale`; returns 0 when either name is absent.  JavaScript's
truncated `%` followed by the `if (interval < 0) interval += 12` fix-up
yields the unique representative in `[0, 12)`, which is `Int.emod`. -/
def calculateInterval (rootNote noteName : String) : ℤ :=
  match chromaticScale.findIdx? (· == rootNote),
        chromaticScale.findIdx? (· == noteName) with
  | some rootIndex, some noteIndex => ((noteIndex : ℤ) - (rootIndex : ℤ)) % 12
  | _, _ => 0

/-- `matchCount` of `intervalsMatchChord`: how many of the chord's defined
interval tones occur in the detected interval set. -/
def matchCount (detectedIntervals chordIntervals : List ℤ) : ℕ :=
  (chordIntervals.filter (fun interval => detectedIntervals.contains interval)).length

/-- `intervalsMatchChord(detectedIntervals, chordIntervals)`:
`matchCount >= 3 && matchCount / chordIntervals.length >= 0.75`.
The ratio is exact in ℚ (as it is in IEEE doubles for lengths ≤ 4). -/
def intervalsMatchChord (detectedIntervals chordIntervals : List ℤ) : Prop :=
  3 ≤ matchCount detectedIntervals chordIntervals ∧
    (3 : ℚ) / 4 ≤
      (matchCount detectedIntervals chordIntervals : ℚ) / (chordIntervals.length : ℚ)

instance (d c : List ℤ) : Decidable (intervalsMatchChord d c) :=
  inferInstanceAs (Decidable (_ ∧ _))

/-- The sorted interval list `noteNames.map(calculateInterval(root, ·)).sort((a,b) => a-b)`. -/
def sortedIntervals (noteNames : List String) (rootNote : String) : List ℤ :=
  List.insertionSort (· ≤ ·)
    (noteNames.map (fun noteName => calculateInterval rootNote noteName))

/-- Inner loop of `identifyChord` over `Object.entries(this.chordDefinitions)`:
first chord type whose interval pattern matches wins. -/
def findMatchingType (intervals : List ℤ) : List (String × List ℤ) → Option String
  | [] => none
  | (chordType, chordIntervals) :: rest =>
    if intervalsMatchChord intervals chordIntervals then some chordType
    else findMatchingType intervals rest

/-- Outer loop of `identifyChord` over the candidate roots
(`for (const rootNote of noteNames)`): first root with a matching type wins. -/
def findMatchingRoot (noteNames : List String) : List String → Option ChordId
  | [] => none
  | rootNote :: rest =>
    match findMatchingType (sortedIntervals noteNames rootNote) chordDefinitions with
    | some chordType => some ⟨rootNote, chordType⟩
    | none => findMatchingRoot noteNames rest

/-- `identifyChord(noteNames)`: `null` for fewer than two names, otherwise the
first root (in list order) admitting a matching chord definition. -/
def identifyChord (noteNames : List String) : Option ChordId :=
  if noteNames.length < 2 then none
  else findMatchingRoot noteNames noteNames

/-- Helper for `dedupFirst`: insertion-ordered set semantics with an
accumulator of already-seen names. -/
def dedupFirstAux (seen : List String) : List String → List String
  | [] => []
  | a :: rest =>
    if seen.contains a then dedupFirstAux seen rest
    else a :: dedupFirstAux (a :: seen) rest

/-- First-occurrence deduplication, the semantics of
`Array.from(new Set(list))` used by `detectChords` for `uniqueNotes`. -/
def dedupFirst (l : List String) : List String := dedupFirstAux [] l

/-! ### The signal pipeline

Real-valued arithmetic (window function, autocorrelation, logarithms) is
modelled over `ℝ`; comparisons use classical decidability. -/

open scoped Classical

/-- `convertToMono(audioBuffer)`: a single channel is returned unchanged,
otherwise channels are averaged per sample index over the buffer's declared
`length`.  Out-of-range array reads are modelled as `0`. -/
noncomputable def convertToMono (audioBuffer : AudioBuffer) : List ℝ :=
  if audioBuffer.numberOfChannels = 1 then audioBuffer.channels.getD 0 []
  else
    (List.range audioBuffer.length).map (fun i =>
      (((List.range audioBuffer.numberOfChannels).map
          (fun channel => (audioBuffer.channels.getD channel []).getD i 0)).sum)
        / (audioBuffer.numberOfChannels : ℝ))

/-- `segmentLength = this.bufferSize`. -/
def segmentLength : ℕ := bufferSize

/-- `overlap = segmentLength / 2` (50% overlap). -/
def overlap : ℕ := segmentLength / 2

/-- The `for (let i = 0; i < audioData.length - segmentLength; i += overlap)`
loop of `segmentAudio`; note the strict `<` against `length - segmentLength`.
The loop advances by `overlap ≥ 1`, so `audioData.length` steps of fuel are
always enough; the fuel only encodes termination. -/
def segmentLoop (audioData : List ℝ) : ℕ → ℕ → List (List ℝ)
  | 0, _ => []
  | fuel + 1, i =>
    if i < audioData.length - segmentLength then
      ((audioData.drop i).take segmentLength) :: segmentLoop audioData fuel (i + overlap)
    else []

/-- `segmentAudio(audioData)`. -/
def segmentAudio (audioData : List ℝ) : List (List ℝ) :=
  segmentLoop audioData audioData.length 0

/-- Number of iterations performed by the `segmentAudio` loop on a signal of
length `len`: offsets `k · overlap` with `k · overlap < len - segmentLength`
(truncated subtraction agrees with the JavaScript comparison here). -/
def numSegments (len : ℕ) : ℕ := (len - segmentLength + overlap - 1) / overlap

/-- Hann coefficient `0.5 * (1 - cos(2π·i/(N-1)))` for a buffer of length `n`. -/
noncomputable def hannValue (n i : ℕ) : ℝ :=
  0.5 * (1 - Real.cos (2 * Real.pi * (i : ℝ) / ((n : ℝ) - 1)))

/-- `applyHannWindow(buffer)`: sample-wise multiplication by the Hann window. -/
noncomputable def applyHannWindow (buffer : List ℝ) : List ℝ :=
  (List.range buffer.length).map (fun i => buffer.getD i 0 * hannValue buffer.length i)

/-- `autocorrelation[lag] = Σ_{i < bufferSize - lag} w[i]·w[i+lag]` computed by
`detectPitchAutocorrelation` (reads past the end are modelled as `0`). -/
noncomputable def autocorrAt (windowedBuffer : List ℝ) (lag : ℕ) : ℝ :=
  ((List.range (bufferSize - lag)).map
    (fun i => windowedBuffer.getD i 0 * windowedBuffer.getD (i + lag) 0)).sum

/-- `minSamples = Math.floor(sampleRate / maxFrequency)` (= 44). -/
def minSamples : ℕ := sampleRate / maxFrequencyHz

/-- `maxSamples = Math.ceil(sampleRate / minFrequency)` (= 552); `Nat` ceiling
division of the exact quotient. -/
def maxSamples : ℕ := (sampleRate + minFrequencyHz - 1) / minFrequencyHz

/-- The scanned lag window `[minSamples, maxSamples)` of the peak search. -/
def lagSearchRange : List ℕ := List.range' minSamples (maxSamples - minSamples)

/-- The peak-search loop of `detectPitchAutocorrelation`: running maximum
starts at `maxCorrelation = 0`, `maxIndex = -1`, and is replaced only on a
strict increase (`autocorrelation[i] > maxCorrelation`). -/
noncomputable def acLoop (c : ℕ → ℝ) : ℝ × ℤ :=
  lagSearchRange.foldl (fun acc i => if c i > acc.1 then (c i, (i : ℤ)) else acc) (0, -1)

/-- `detectPitchAutocorrelation(buffer)`: `sampleRate / maxIndex` when
`maxIndex > 0`, otherwise `0` ("no clear pitch detected"). -/
noncomputable def detectPitchAutocorrelation (buffer : List ℝ) : ℝ :=
  let windowedBuffer := applyHannWindow buffer
  let m := acLoop (autocorrAt windowedBuffer)
  if 0 < m.2 then (sampleRate : ℝ) / (m.2 : ℝ) else 0

/-- `const noteNames = ['A', 'A#', 'B', 'C', 'C#', 'D', 'D#', 'E', 'F', 'F#',
'G', 'G#']` — the A-first table indexed by `frequencyToNote`. -/
def noteNames : List String :=
  ["A", "A#", "B", "C", "C#", "D"] ++ ["D#", "E", "F", "F#", "G", "G#"]

/-- `frequencyToNote(frequency)`.  `Math.round` rounds half toward `+∞`, which
is Mathlib's `round`.  JavaScript's truncated `%` followed by the
`if (noteIndex < 0) noteIndex += 12` fix-up equals `Int.emod`; `Math.floor` of
an integer quotient is `Int.fdiv`. -/
noncomputable def frequencyToNote (frequency : ℝ) : Note :=
  let a4 : ℝ := 440
  let semitonesFromA4 : ℤ := round (12 * Real.logb 2 (frequency / a4))
  let closestNoteFreq : ℝ := a4 * ((2 : ℝ) ^ ((1 : ℝ) / 12)) ^ semitonesFromA4
  let cents : ℤ := round (1200 * Real.logb 2 (frequency / closestNoteFreq))
  let noteIndex : ℤ := (semitonesFromA4 + 9) % 12
  let octave : ℤ := 4 + Int.fdiv (semitonesFromA4 + 9) 12
  { name := noteNames.getD noteIndex.toNat "",
    octave := if noteIndex < 3 then octave - 1 else octave,
    frequency := frequency,
    cents := cents }

/-- Merge test of `consolidateNotes`: same name, same octave, and
`Math.abs(note.startTime - currentNote.endTime) < 0.05`. -/
noncomputable def extendsCurrent (currentNote note : PitchSample) : Prop :=
  note.note.name = currentNote.note.name ∧
    note.note.octave = currentNote.note.octave ∧
    |note.startTime - currentNote.endTime| < 0.05

/-- Body of the `consolidateNotes` loop carrying the running `currentNote`. -/
noncomputable def consolidateLoop (currentNote : PitchSample) :
    List PitchSample → List PitchSample
  | [] => [currentNote]
  | note :: rest =>
    if extendsCurrent currentNote note then
      consolidateLoop { currentNote with endTime := note.endTime } rest
    else currentNote :: consolidateLoop note rest

/-- `consolidateNotes(notes)`. -/
noncomputable def consolidateNotes : List PitchSample → List PitchSample
  | [] => []
  | note :: rest => consolidateLoop note rest

/-- `segmentDuration = this.bufferSize / this.sampleRate`. -/
noncomputable def segmentDuration : ℝ := (bufferSize : ℝ) / (sampleRate : ℝ)

/-- The per-segment loop body of `detectPitches` before consolidation: one
`PitchSample` per segment whose detected frequency lies in
`[minFrequency, maxFrequency]`, with `startTime = i · segmentDuration · 0.5`. -/
noncomputable def perSegmentSamples (segments : List (List ℝ)) : List PitchSample :=
  segments.enum.filterMap (fun p =>
    if (minFrequencyHz : ℝ) ≤ detectPitchAutocorrelation p.2 ∧
        detectPitchAutocorrelation p.2 ≤ (maxFrequencyHz : ℝ) then
      some { frequency := detectPitchAutocorrelation p.2,
             note := frequencyToNote (detectPitchAutocorrelation p.2),
             startTime := (p.1 : ℝ) * segmentDuration * 0.5,
             endTime := (p.1 : ℝ) * segmentDuration * 0.5 + segmentDuration }
    else none)

/-- `detectPitches(segments)` = the per-segment samples, consolidated. -/
noncomputable def detectPitches (segments : List (List ℝ)) : List PitchSample :=
  consolidateNotes (perSegmentSamples segments)

/-- `name.replace('#', '♯')` as used by `generateSimpleNotes`; pitch-class
names contain at most one `#`, so character-wise replacement is exact. -/
def replaceSharp (s : String) : String :=
  ⟨s.data.map (fun c => if c = '#' then '♯' else c)⟩

/-- `generateSimpleNotes(pitchData)`. -/
noncomputable def generateSimpleNotes (pitchData : List PitchSample) : List SimpleNote :=
  pitchData.map (fun pitch =>
    { note := replaceSharp pitch.note.name,
      octave := pitch.note.octave,
      duration := pitch.endTime - pitch.startTime,
      startTime := pitch.startTime })

/-- `timeWindow = 0.2` seconds (chord bucketing). -/
noncomputable def timeWindow : ℝ := 0.2

/-- `windowKey = Math.floor(pitch.startTime / timeWindow)`. -/
noncomputable def windowKey (pitch : PitchSample) : ℤ := ⌊pitch.startTime / timeWindow⌋

/-- Per-bucket body of `detectChords`: with at least two notes, take
`Math.min` of the start times, `Math.max` of the end times, the
first-occurrence-unique note names, and try `identifyChord`. -/
noncomputable def chordOfWindow (notes : List PitchSample) : Option Chord :=
  match notes with
  | [] => none
  | n :: ns =>
    if 2 ≤ (n :: ns).length then
      let startTime := (ns.map (·.startTime)).foldl min n.startTime
      let endTime := (ns.map (·.endTime)).foldl max n.endTime
      let uniqueNotes := dedupFirst ((n :: ns).map (fun p => p.note.name))
      match identifyChord uniqueNotes with
      | some chord =>
        some { root := chord.root, type := chord.type, notes := uniqueNotes,
               startTime := startTime, endTime := endTime,
               duration := endTime - startTime }
      | none => none
    else none

/-- `detectChords(pitchData)`: notes are grouped by `windowKey`;
`Object.keys` iterates the integer-like keys in ascending numeric order,
modelled by sorting the distinct keys. -/
noncomputable def detectChords (pitchData : List PitchSample) : List Chord :=
  (List.insertionSort (· ≤ ·) (pitchData.map windowKey).dedup).filterMap
    (fun key => chordOfWindow (pitchData.filter (fun p => decide (windowKey p = key))))

/-- Duration classification of `generateSheetMusic` (milliseconds,
inclusive lower bounds, highest class wins). -/
noncomputable def notationDuration (durationMs : ℝ) : String :=
  if 1000 ≤ durationMs then "whole"
  else if 500 ≤ durationMs then "half"
  else if 250 ≤ durationMs then "quarter"
  else if 125 ≤ durationMs then "eighth"
  else "sixteenth"

/-- `generateSheetMusic(pitchData)`: fixed 4/4 signature and treble clef. -/
noncomputable def generateSheetMusic (pitchData : List PitchSample) : SheetMusic :=
  { notes := pitchData.map (fun pitch =>
      { pitch := pitch.note.name,
        octave := pitch.note.octave,
        duration := notationDuration ((pitch.endTime - pitch.startTime) * 1000),
        startTime := pitch.startTime }),
    timeSignature := ⟨4, 4⟩,
    clef := "treble" }

/-- `convertToMusicalNotation(pitchData)`: the three views plus
`rawPitchData: pitchData` (the argument it was given). -/
noncomputable def convertToMusicalNotation (pitchData : List PitchSample) :
    TranscriptionResult :=
  { simpleNotes := generateSimpleNotes pitchData,
    complexChords := detectChords pitchData,
    sheetMusic := generateSheetMusic pitchData,
    rawPitchData := pitchData }

/-- `analyzeAudio(audioBuffer)`: the full pipeline.  No branch of the source
throws for any input, so the `try/catch` re-throw wrapper is the identity. -/
noncomputable def analyzeAudio (audioBuffer : AudioBuffer) : TranscriptionResult :=
  convertToMusicalNotation (detectPitches (segmentAudio (convertToMono audioBuffer)))

/-! ### Concrete scenario inputs -/

/-- A hand-built `Note` record of pitch class `name` in octave 4 at
frequency `freq` (cents 0), as fed to the chord-detection scenario. -/
noncomputable def mkNote4 (name : String) (freq : ℝ) : Note :=
  ⟨name, 4, freq, 0⟩

/-- Pitch data for the claim-C2 scenario: C4, E4, G4, B♭4 sounding together
in `[0, 0.1]`, i.e. inside one 0.2 s chord window. -/
noncomputable def c2pitches : List PitchSample :=
  [⟨261.63, mkNote4 "C" 261.63, 0, 0.1⟩,
   ⟨329.63, mkNote4 "E" 329.63, 0, 0.1⟩,
   ⟨392.00, mkNote4 "G" 392.00, 0, 0.1⟩,
   ⟨466.16, mkNote4 "A#" 466.16, 0, 0.1⟩]

/-- Modelled from the spec (claim C7): the *pure* argmax over the scanned lag
window, ties resolved to the lowest lag — starting from the first lag of the
window and replacing only on a strict increase keeps the first maximiser. -/
noncomputable def claimBestLag (c : ℕ → ℝ) : ℕ :=
  match lagSearchRange with
  | [] => 0
  | l :: ls => ls.foldl (fun acc i => if c i > c acc then i else acc) l

/-- An all-zero analysis segment (digital silence) of the fixed buffer size. -/
noncomputable def zeroSegment : List ℝ := List.replicate bufferSize 0

/-- A one-channel digital-silence buffer: a single zero sample. -/
noncomputable def c8buffer : AudioBuffer := ⟨1, 1, [[0]]⟩

/-- A malformed two-channel buffer with inconsistent per-channel lengths
(4 and 8 samples) and declared length 4. -/
noncomputable def c5buffer : AudioBuffer :=
  ⟨2, 4, [[1, 1, 1, 1], [1, 1, 1, 1, 1, 1, 1, 1]]⟩

/-- The empty, well-formed transcription ("no music detected"). -/
noncomputable def emptyResult : TranscriptionResult :=
  { simpleNotes := [], complexChords := [],
    sheetMusic := { notes := [], timeSignature := ⟨4, 4⟩, clef := "treble" },
    rawPitchData := [] }

/-- A length-`len` signal that is `1` at the positions in `s` and `0`
elsewhere (a sparse impulse signal). -/
noncomputable def impulseSignal (len : ℕ) (s : List ℕ) : List ℝ :=
  (List.range len).map (fun i => if i ∈ s then 1 else 0)

/-- Mono buffer for claim C3: 6145 samples with impulse pairs at
`{1, 101}` (lag 100 → 441 Hz, note F♯4 per the code) and `{4097, 4202}`
(lag 105 → 420 Hz, note F4 per the code), so the two analysis segments
yield *different* adjacent notes. -/
noncomputable def c3buffer : AudioBuffer :=
  ⟨1, 6145, [impulseSignal 6145 [1, 101, 4097, 4202]]⟩

/-- Mono buffer for claim C4: 6145 samples with impulse pairs at
`{1, 101}` and `{4097, 4197}` — both segments have lag 100 → 441 Hz, the
*same* note, so consolidation merges them. -/
noncomputable def c4buffer : AudioBuffer :=
  ⟨1, 6145, [impulseSignal 6145 [1, 101, 4097, 4197]]⟩

/-- Two closed time intervals (start, end) do not overlap. -/
def intervalsDisjoint (a b : ℝ × ℝ) : Prop := a.2 ≤ b.1 ∨ b.2 ≤ a.1

/-- The claim-C3 invariant exactly as stated: `startTime ≤ endTime` for every
timed entity, every output sequence ordered by `startTime` non-decreasing,
and no two `[startTime, endTime]` ranges overlap within `simpleNotes` or
within `complexChords`. -/
def timingInvariant (r : TranscriptionResult) : Prop :=
  r.rawPitchData.Forall (fun p => p.startTime ≤ p.endTime) ∧
    r.simpleNotes.Forall (fun n => 0 ≤ n.duration) ∧
    r.complexChords.Forall (fun c => c.startTime ≤ c.endTime) ∧
    List.Pairwise (fun a b => a.startTime ≤ b.startTime) r.rawPitchData ∧
    List.Pairwise (fun a b => a.startTime ≤ b.startTime) r.simpleNotes ∧
    List.Pairwise (fun a b => a.startTime ≤ b.startTime) r.complexChords ∧
    List.Pairwise (fun a b => a.startTime ≤ b.startTime) r.sheetMusic.notes ∧
    List.Pairwise intervalsDisjoint
      (r.simpleNotes.map (fun n => (n.startTime, n.startTime + n.duration))) ∧
    List.Pairwise intervalsDisjoint
      (r.complexChords.map (fun c => (c.startTime, c.endTime)))

/-- The provable part of the claim-C3 invariant: `startTime ≤ endTime` for
every timed entity and every output sequence ordered by `startTime`
non-decreasing (no disjointness). -/
def orderedInvariant (r : TranscriptionResult) : Prop :=
  r.rawPitchData.Forall (fun p => p.startTime ≤ p.endTime) ∧
    r.simpleNotes.Forall (fun n => 0 ≤ n.duration) ∧
    r.complexChords.Forall (fun c => c.startTime ≤ c.endTime) ∧
    List.Pairwise (fun a b => a.startTime ≤ b.startTime) r.rawPitchData ∧
    List.Pairwise (fun a b => a.startTime ≤ b.startTime) r.simpleNotes ∧
    List.Pairwise (fun a b => a.startTime ≤ b.startTime) r.complexChords ∧
    List.Pairwise (fun a b => a.startTime ≤ b.startTime) r.sheetMusic.notes

/-! ## Theorems -/

/-- On the pitch-class set `{C, E, G, A#}` the full triad `Major` matches
(3 of 3 tones, ratio 1) and, being first in the definition table, wins before
`Dominant 7` is ever tested. -/
lemma identifyChord_seventh : identifyChord ["C", "E", "G", "A#"] = some ⟨"C", "Major"⟩ := by
  have hmatch : intervalsMatchChord [0, 4, 7, 10] [0, 4, 7] := by
    refine ⟨by decide, ?_⟩
    have h : matchCount [0, 4, 7, 10] [0, 4, 7] = 3 := by decide
    rw [h]; norm_num
  have hs : sortedIntervals ["C", "E", "G", "A#"] "C" = [0, 4, 7, 10] := by decide
  rw [identifyChord]
  simp only [List.length_cons, List.length_nil]
  rw [if_neg (by omega)]
  rw [findMatchingRoot, hs, chordDefinitions, findMatchingType, if_pos hmatch]

/-- All four C2 samples share window key 0. -/
lemma c2_windowKeys : c2pitches.map windowKey = [0, 0, 0, 0] := by
  simp [c2pitches, windowKey, timeWindow]

/-- Full evaluation of `detectChords` on the C2 scenario. -/
lemma c2_detectChords_eval :
    detectChords c2pitches = [⟨"C", "Major", ["C", "E", "G", "A#"], 0, 0.1, 0.1⟩] := by
  rw [detectChords, c2_windowKeys]
  have h1 : ([0, 0, 0, 0] : List ℤ).dedup = [0] := by decide
  have h2 : List.insertionSort (· ≤ ·) ([0] : List ℤ) = [0] := by decide
  rw [h1, h2]
  have hfilter : c2pitches.filter (fun p => decide (windowKey p = 0)) = c2pitches := by
    simp [c2pitches, windowKey, timeWindow]
  simp only [List.filterMap_cons, List.filterMap_nil, hfilter]
  rw [c2pitches, chordOfWindow]
  simp only [List.length_cons, List.length_nil, List.map_cons, List.map_nil]
  rw [if_pos (by omega)]
  have hdedup : dedupFirst ["C", "E", "G", "A#"] = ["C", "E", "G", "A#"] := by decide
  simp only [mkNote4, hdedup, identifyChord_seventh]
  simp only [List.foldl_cons, List.foldl_nil, min_self, max_self, Option.some.injEq]
  norm_num

/-- Claim C2, counterexample: feeding C4, E4, G4, B♭4 inside one 0.2 s chord
window does **not** identify `{root: C, type: Dominant 7}` — no Dominant 7
chord is produced at all, because the table-order first match (`C Major`,
3 of its 3 tones present) wins. -/
theorem c2_counterexample :
    ¬ ∃ c ∈ detectChords c2pitches, c.root = "C" ∧ c.type = "Dominant 7" := by
  rw [c2_detectChords_eval]
  rintro ⟨c, hc, -, htype⟩
  simp only [List.mem_singleton] at hc
  subst hc
  exact absurd htype (by decide)

/-- Claim C2, amended: on C4, E4, G4, B♭4 within one 0.2 s window, chord
identification returns `{root: C, type: Major}` — the first entry of the
chord-definition table whose match criterion is satisfied; the fuller
Dominant 7 match is never preferred. -/
theorem c2_theorem :
    (detectChords c2pitches).map (fun c => (c.root, c.type)) = [("C", "Major")] := by
  rw [c2_detectChords_eval]; rfl

/-- The `segmentAudio` loop in closed form: slice `k` starts at offset
`k · overlap`, and a slice exists exactly when the strict comparison
`offset < length - segmentLength` of the source loop holds. -/
lemma segmentLoop_closed (l : List ℝ) :
    ∀ (m fuel j : ℕ), numSegments l.length - j = m → m ≤ fuel →
      segmentLoop l fuel (j * overlap) =
        (List.range' j m).map (fun k => (l.drop (k * overlap)).take segmentLength) := by
  have hiff : ∀ j : ℕ, (j * overlap < l.length - segmentLength) ↔ j < numSegments l.length := by
    intro j
    simp only [numSegments, overlap, segmentLength, bufferSize]
    omega
  intro m
  induction m with
  | zero =>
    intro fuel j hj _
    cases fuel with
    | zero => simp [segmentLoop]
    | succ f =>
      rw [List.range'_zero, List.map_nil, segmentLoop, if_neg]
      rw [hiff]; omega
  | succ m ih =>
    intro fuel j hj hf
    cases fuel with
    | zero => omega
    | succ f =>
      rw [segmentLoop, if_pos (by rw [hiff]; omega)]
      have hstep : j * overlap + overlap = (j + 1) * overlap := by ring
      rw [hstep, ih f (j + 1) (by omega) (by omega)]
      rw [List.range'_succ, List.map_cons]

/-- `segmentAudio` in closed form. -/
lemma segmentAudio_eq (l : List ℝ) :
    segmentAudio l =
      (List.range (numSegments l.length)).map
        (fun k => (l.drop (k * overlap)).take segmentLength) := by
  have hm : numSegments l.length ≤ l.length := by
    simp only [numSegments, overlap, segmentLength, bufferSize]
    omega
  have h := segmentLoop_closed l (numSegments l.length) l.length 0 (by omega) hm
  rw [Nat.zero_mul] at h
  rw [segmentAudio, h, List.range_eq_range']

/-- Claim C6, amended: `segmentAudio` yields exactly the fixed-length slices
at offsets `0, overlap, 2·overlap, …` for offsets with
`offset + segmentLength < len` (strictly); in particular a signal of length
exactly `segmentLength` yields no segment, and the partial tail is dropped. -/
theorem c6_theorem (audioData : List ℝ) :
    segmentAudio audioData =
      (List.range (numSegments audioData.length)).map
        (fun k => (audioData.drop (k * overlap)).take segmentLength) ∧
      ∀ k : ℕ, k < numSegments audioData.length ↔
        k * overlap + segmentLength < audioData.length := by
  refine ⟨segmentAudio_eq audioData, ?_⟩
  intro k
  simp only [numSegments, overlap, segmentLength, bufferSize]
  omega

/-- Claim C6, counterexample: a signal of length exactly `segmentLength`
(4096) yields **zero** segments — the loop condition
`i < length - segmentLength` is strict — whereas the claim demands one
segment (the whole signal). -/
theorem c6_counterexample :
    segmentAudio (List.replicate segmentLength (0 : ℝ)) = [] ∧
      ([] : List (List ℝ)) ≠ [List.replicate segmentLength (0 : ℝ)] := by
  refine ⟨?_, by simp⟩
  rw [segmentAudio_eq]
  have h : numSegments (List.replicate segmentLength (0 : ℝ)).length = 0 := by
    rw [List.length_replicate]
    simp only [numSegments, overlap, segmentLength, bufferSize]
  rw [h, List.range_zero, List.map_nil]

/-! ### Consolidation: idempotence (claim C9) -/

/-- The merge test only reads `name`, `octave`, `startTime` of the candidate
and the `endTime` of the running note, so replacing the candidate's `endTime`
leaves it unchanged. -/
lemma extendsCurrent_endTime (c x : PitchSample) (e : ℝ) :
    extendsCurrent c { x with endTime := e } ↔ extendsCurrent c x := Iff.rfl

/-- The first element emitted by the consolidation loop is the running note,
possibly with an extended `endTime`. -/
lemma consolidateLoop_head :
    ∀ (rest : List PitchSample) (cur : PitchSample),
      ∃ e tail, consolidateLoop cur rest = { cur with endTime := e } :: tail := by
  intro rest
  induction rest with
  | nil => exact fun cur => ⟨cur.endTime, [], rfl⟩
  | cons note rest ih =>
    intro cur
    rw [consolidateLoop]
    by_cases h : extendsCurrent cur note
    · rw [if_pos h]
      obtain ⟨e, tail, htail⟩ := ih { cur with endTime := note.endTime }
      exact ⟨e, tail, htail⟩
    · exact ⟨cur.endTime, _, by rw [if_neg h]⟩

/-- Adjacent notes in the output of the consolidation loop never satisfy the
merge test: when a merge fails the failing comparison is made against exactly
the emitted note's final `endTime`. -/
lemma consolidateLoop_chain :
    ∀ (rest : List PitchSample) (cur : PitchSample),
      List.Chain' (fun a b => ¬ extendsCurrent a b) (consolidateLoop cur rest) := by
  intro rest
  induction rest with
  | nil => exact fun cur => List.chain'_singleton cur
  | cons note rest ih =>
    intro cur
    rw [consolidateLoop]
    by_cases h : extendsCurrent cur note
    · rw [if_pos h]; exact ih _
    · rw [if_neg h]
      rw [List.chain'_cons']
      refine ⟨?_, ih note⟩
      intro b hb
      obtain ⟨e, tail, htail⟩ := consolidateLoop_head rest note
      rw [htail] at hb
      simp only [List.head?_cons, Option.mem_def, Option.some.injEq] at hb
      rw [← hb]
      exact h

/-- A sequence whose adjacent pairs all fail the merge test is left unchanged
by the consolidation loop. -/
lemma consolidateLoop_of_chain :
    ∀ (rest : List PitchSample) (cur : PitchSample),
      List.Chain' (fun a b => ¬ extendsCurrent a b) (cur :: rest) →
        consolidateLoop cur rest = cur :: rest := by
  intro rest
  induction rest with
  | nil => exact fun cur _ => rfl
  | cons note rest ih =>
    intro cur hchain
    rw [List.chain'_cons] at hchain
    rw [consolidateLoop, if_neg hchain.1, ih note hchain.2]

/-- Claim C9: `consolidateNotes` is idempotent — consolidating an already
consolidated pitch-sample sequence returns it unchanged. -/
theorem c9_theorem (notes : List PitchSample) :
    consolidateNotes (consolidateNotes notes) = consolidateNotes notes := by
  cases notes with
  | nil => rfl
  | cons note rest =>
    rw [consolidateNotes]
    have hchain := consolidateLoop_chain rest note
    obtain ⟨e, tail, htail⟩ := consolidateLoop_head rest note
    rw [htail] at hchain ⊢
    rw [consolidateNotes]
    exact consolidateLoop_of_chain tail _ hchain

/-! ### Output views and sharp spelling (claim C10) -/

/-- `dedupFirstAux` only returns elements of its input list. -/
lemma dedupFirstAux_subset : ∀ (l seen : List String), dedupFirstAux seen l ⊆ l := by
  intro l
  induction l with
  | nil => intro seen; simp [dedupFirstAux]
  | cons a rest ih =>
    intro seen
    rw [dedupFirstAux]
    by_cases h : seen.contains a
    · rw [if_pos h]
      exact (ih seen).trans (List.subset_cons_self a rest)
    · rw [if_neg h]
      exact List.cons_subset_cons a (ih (a :: seen))

/-- `dedupFirst` only returns elements of its input list. -/
lemma dedupFirst_subset (l : List String) : dedupFirst l ⊆ l :=
  dedupFirstAux_subset l []

/-- The root returned by the `identifyChord` candidate loop is one of the
candidates. -/
lemma findMatchingRoot_mem :
    ∀ (cand all : List String) (c : ChordId),
      findMatchingRoot all cand = some c → c.root ∈ cand := by
  intro cand
  induction cand with
  | nil => intro all c h; simp [findMatchingRoot] at h
  | cons r rs ih =>
    intro all c h
    rw [findMatchingRoot] at h
    cases hm : findMatchingType (sortedIntervals all r) chordDefinitions with
    | some t =>
      rw [hm] at h
      simp only [Option.some.injEq] at h
      rw [← h]
      exact List.mem_cons_self r rs
    | none =>
      rw [hm] at h
      exact List.mem_cons_of_mem _ (ih all c h)

/-- The root returned by `identifyChord` is one of the supplied note names. -/
lemma identifyChord_root_mem (l : List String) (c : ChordId)
    (h : identifyChord l = some c) : c.root ∈ l := by
  rw [identifyChord] at h
  by_cases hl : l.length < 2
  · rw [if_pos hl] at h; exact absurd h (by simp)
  · rw [if_neg hl] at h
    exact findMatchingRoot_mem l l c h

/-- A chord produced from a window carries a root and note-name set drawn
from the window's (unreplaced) pitch-class names. -/
lemma chordOfWindow_names (notes : List PitchSample) (c : Chord)
    (h : chordOfWindow notes = some c) :
    c.root ∈ notes.map (fun p => p.note.name) ∧
      c.notes ⊆ notes.map (fun p => p.note.name) := by
  cases notes with
  | nil => exact absurd h (by simp [chordOfWindow])
  | cons n ns =>
    rw [chordOfWindow] at h
    by_cases hlen : 2 ≤ (n :: ns).length
    · rw [if_pos hlen] at h
      simp only at h
      cases hic : identifyChord (dedupFirst ((n :: ns).map fun p => p.note.name)) with
      | none => rw [hic] at h; exact absurd h (by simp)
      | some chord =>
        rw [hic] at h
        simp only [Option.some.injEq] at h
        have hroot : c.root = chord.root := by rw [← h]
        have hnotes : c.notes = dedupFirst ((n :: ns).map fun p => p.note.name) := by
          rw [← h]
        constructor
        · rw [hroot]
          exact dedupFirst_subset _ (identifyChord_root_mem _ chord hic)
        · rw [hnotes]
          exact dedupFirst_subset _
    · rw [if_neg hlen] at h
      exact absurd h (by simp)

/-- Claim C10: in every `TranscriptionResult` the simple-note names have the
ASCII `#` replaced by `♯`, while chord roots/note sets and sheet-music
pitches keep the ASCII spelling — the same sharped pitch is spelled
differently in `simpleNotes` than in the other two views. -/
theorem c10_theorem (pitchData : List PitchSample) :
    (( convertToMusicalNotation pitchData).simpleNotes.map (fun n => n.note) =
        pitchData.map (fun p => replaceSharp p.note.name)) ∧
      (( convertToMusicalNotation pitchData).sheetMusic.notes.map (fun n => n.pitch) =
        pitchData.map (fun p => p.note.name)) ∧
      (( convertToMusicalNotation pitchData).complexChords.Forall (fun c =>
        c.root ∈ pitchData.map (fun p => p.note.name) ∧
          c.notes ⊆ pitchData.map (fun p => p.note.name))) ∧
      replaceSharp "A#" = "A♯" ∧ ("A♯" : String) ≠ "A#" := by
  refine ⟨?_, ?_, ?_, by decide, by decide⟩
  · simp [convertToMusicalNotation, generateSimpleNotes, List.map_map]
  · simp [convertToMusicalNotation, generateSheetMusic, List.map_map]
  · rw [List.forall_iff_forall_mem]
    intro c hc
    simp only [convertToMusicalNotation] at hc
    rw [detectChords] at hc
    obtain ⟨key, _, hc⟩ := List.mem_filterMap.mp hc
    have hn := chordOfWindow_names _ c hc
    have hsub : (pitchData.filter fun p => decide (windowKey p = key)) ⊆ pitchData :=
      List.filter_subset' pitchData
    exact ⟨List.map_subset _ hsub hn.1, hn.2.trans (List.map_subset _ hsub)⟩

/-! ### The autocorrelation peak search (claims C7, C8) -/

/-- The scanned lag window is `[44, 45, …, 551]`. -/
lemma lagSearchRange_eq : lagSearchRange = List.range' 44 508 := by
  norm_num [lagSearchRange, minSamples, maxSamples, sampleRate, minFrequencyHz,
    maxFrequencyHz]

/-- Elements of the lag window are between 44 and 551. -/
lemma mem_lagSearchRange {i : ℕ} (h : i ∈ lagSearchRange) : 44 ≤ i ∧ i < 552 := by
  rw [lagSearchRange_eq] at h
  rw [List.mem_range'_1] at h
  omega

/-- If no scanned value strictly exceeds the accumulator, the peak-search fold
keeps the accumulator. -/
lemma foldl_acc_of_le (c : ℕ → ℝ) :
    ∀ (l : List ℕ) (a : ℝ × ℤ), (∀ i ∈ l, c i ≤ a.1) →
      l.foldl (fun acc i => if c i > acc.1 then (c i, (i : ℤ)) else acc) a = a := by
  intro l
  induction l with
  | nil => intro a _; rfl
  | cons x xs ih =>
    intro a h
    rw [List.foldl_cons, if_neg (not_lt.mpr (h x (List.mem_cons_self x xs)))]
    exact ih a (fun i hi => h i (List.mem_cons_of_mem _ hi))

/-- The peak search returns the first maximiser when scanning a strictly
ascending lag list, provided the maximum strictly exceeds the initial
accumulator value. -/
lemma foldl_first_max (c : ℕ → ℝ) :
    ∀ (l : List ℕ) (a : ℝ × ℤ) (j : ℕ), List.Pairwise (· < ·) l → j ∈ l →
      a.1 < c j → (∀ i ∈ l, c i ≤ c j) → (∀ i ∈ l, i < j → c i < c j) →
      l.foldl (fun acc i => if c i > acc.1 then (c i, (i : ℤ)) else acc) a =
        (c j, (j : ℤ)) := by
  intro l
  induction l with
  | nil => intro a j _ hj; exact absurd hj (List.not_mem_nil j)
  | cons x xs ih =>
    intro a j hpw hj ha hle hfirst
    rw [List.pairwise_cons] at hpw
    rw [List.foldl_cons]
    rcases List.mem_cons.mp hj with hx | hj'
    · subst hx
      rw [if_pos ha]
      exact foldl_acc_of_le c xs (c j, (j : ℤ))
        (fun i hi => hle i (List.mem_cons_of_mem _ hi))
    · have hxj : x < j := hpw.1 j hj'
      have hcx : c x < c j := hfirst x (List.mem_cons_self x xs) hxj
      by_cases hgt : c x > a.1
      · rw [if_pos hgt]
        exact ih (c x, (x : ℤ)) j hpw.2 hj' hcx
          (fun i hi => hle i (List.mem_cons_of_mem _ hi))
          (fun i hi hij => hfirst i (List.mem_cons_of_mem _ hi) hij)
      · rw [if_neg hgt]
        exact ih a j hpw.2 hj' ha
          (fun i hi => hle i (List.mem_cons_of_mem _ hi))
          (fun i hi hij => hfirst i (List.mem_cons_of_mem _ hi) hij)

/-- When every scanned autocorrelation value is nonpositive the search ends in
its initial state `(0, -1)`. -/
lemma acLoop_of_nonpos (c : ℕ → ℝ) (h : ∀ i ∈ lagSearchRange, c i ≤ 0) :
    acLoop c = (0, -1) :=
  foldl_acc_of_le c lagSearchRange (0, -1) h

/-- The lag window is strictly ascending. -/
lemma lagSearchRange_pairwise : List.Pairwise (· < ·) lagSearchRange := by
  rw [lagSearchRange_eq]
  exact List.pairwise_lt_range' 44 508 1 (by omega)

/-- Claim C7, amended: the pitch estimator performs the argmax over
`[minSamples, maxSamples)` (ties to the lowest lag) **only when the maximum is
strictly positive** — the running maximum starts at 0 — and returns
`sampleRate / lag` for that lag; when every scanned autocorrelation value is
nonpositive it yields `0` ("no pitch") even though a (nonpositive) maximum at
a positive lag exists. -/
theorem c7_theorem (buffer : List ℝ) :
    ((∀ lag ∈ lagSearchRange, autocorrAt (applyHannWindow buffer) lag ≤ 0) →
        detectPitchAutocorrelation buffer = 0) ∧
      ∀ j ∈ lagSearchRange,
        0 < autocorrAt (applyHannWindow buffer) j →
        (∀ i ∈ lagSearchRange,
          autocorrAt (applyHannWindow buffer) i ≤ autocorrAt (applyHannWindow buffer) j) →
        (∀ i ∈ lagSearchRange, i < j →
          autocorrAt (applyHannWindow buffer) i < autocorrAt (applyHannWindow buffer) j) →
        detectPitchAutocorrelation buffer = (sampleRate : ℝ) / (j : ℝ) := by
  constructor
  · intro h
    rw [detectPitchAutocorrelation]
    simp only [acLoop_of_nonpos _ h]
    norm_num
  · intro j hj hpos hle hfirst
    have hloop : acLoop (autocorrAt (applyHannWindow buffer)) =
        (autocorrAt (applyHannWindow buffer) j, (j : ℤ)) :=
      foldl_first_max _ lagSearchRange (0, -1) j lagSearchRange_pairwise hj hpos hle hfirst
    rw [detectPitchAutocorrelation]
    simp only [hloop]
    rw [if_pos (by exact_mod_cast (mem_lagSearchRange hj).1.trans_lt' (by omega))]
    norm_num

/-! ### Evaluation helpers for zero signals -/

/-- Indexing into a `range`-map. -/
lemma getD_map_range (f : ℕ → ℝ) (n i : ℕ) :
    ((List.range n).map f).getD i 0 = if i < n then f i else 0 := by
  by_cases h : i < n
  · rw [if_pos h, List.getD_eq_getElem _ _ (by simpa using h)]
    simp
  · rw [if_neg h, List.getD_eq_default _ _ (by simpa using not_lt.mp h)]

/-- An all-zero list reads `0` at every index. -/
lemma getD_zero_of_forall_zero {l : List ℝ} (h : ∀ s ∈ l, s = 0) (i : ℕ) :
    l.getD i 0 = 0 := by
  rcases lt_or_ge i l.length with hi | hi
  · rw [List.getD_eq_getElem _ _ hi]
    exact h _ (List.getElem_mem hi)
  · exact List.getD_eq_default _ _ hi

/-- Hann-windowing an all-zero buffer reads `0` everywhere. -/
lemma window_zero {buf : List ℝ} (h : ∀ s ∈ buf, s = 0) (i : ℕ) :
    (applyHannWindow buf).getD i 0 = 0 := by
  rw [applyHannWindow, getD_map_range]
  split
  · rw [getD_zero_of_forall_zero h, zero_mul]
  · rfl

/-- Autocorrelation of an everywhere-zero windowed buffer is zero. -/
lemma autocorrAt_zero {w : List ℝ} (h : ∀ i, w.getD i 0 = 0) (lag : ℕ) :
    autocorrAt w lag = 0 := by
  rw [autocorrAt]
  apply List.sum_eq_zero
  intro x hx
  obtain ⟨i, _, rfl⟩ := List.mem_map.mp hx
  rw [h i, zero_mul]

/-- The pitch estimator yields `0` (no pitch) on an all-zero segment. -/
lemma detect_zero_of_all_zero {seg : List ℝ} (h : ∀ s ∈ seg, s = 0) :
    detectPitchAutocorrelation seg = 0 := by
  have hz : ∀ lag ∈ lagSearchRange, autocorrAt (applyHannWindow seg) lag ≤ 0 :=
    fun lag _ => le_of_eq (autocorrAt_zero (window_zero h) lag)
  rw [detectPitchAutocorrelation]
  simp only [acLoop_of_nonpos _ hz]
  norm_num

/-- The claim-side pure argmax keeps its start lag when no scanned value
strictly exceeds it. -/
lemma foldl_bestlag_fixed (c : ℕ → ℝ) :
    ∀ (l : List ℕ) (a : ℕ), (∀ i ∈ l, c i ≤ c a) →
      l.foldl (fun acc i => if c i > c acc then i else acc) a = a := by
  intro l
  induction l with
  | nil => intro a _; rfl
  | cons x xs ih =>
    intro a h
    rw [List.foldl_cons, if_neg (not_lt.mpr (h x (List.mem_cons_self x xs)))]
    exact ih a (fun i hi => h i (List.mem_cons_of_mem _ hi))

/-- Claim C7, witness for the amended theorem: on the all-zero segment every
scanned autocorrelation value is nonpositive and the estimator yields `0`. -/
theorem c7_witness :
    (∀ lag ∈ lagSearchRange, autocorrAt (applyHannWindow zeroSegment) lag ≤ 0) ∧
      detectPitchAutocorrelation zeroSegment = 0 := by
  have h : ∀ lag ∈ lagSearchRange, autocorrAt (applyHannWindow zeroSegment) lag ≤ 0 :=
    fun lag _ =>
      le_of_eq (autocorrAt_zero (window_zero (by simp [zeroSegment])) lag)
  exact ⟨h, (c7_theorem zeroSegment).1 h⟩

/-- Claim C7, counterexample: on an all-zero segment the claimed pure argmax
(ties to the lowest lag) is lag 44 — a positive lag, so the claim prescribes
frequency `44100 / 44` — yet the code reports no pitch (`0`), because its
running maximum starts at `0` and is never strictly exceeded. -/
theorem c7_counterexample :
    detectPitchAutocorrelation zeroSegment = 0 ∧
      claimBestLag (autocorrAt (applyHannWindow zeroSegment)) = 44 ∧
      (sampleRate : ℝ) / ((44 : ℕ) : ℝ) ≠ 0 := by
  refine ⟨detect_zero_of_all_zero (by simp [zeroSegment]), ?_, by norm_num [sampleRate]⟩
  rw [claimBestLag, lagSearchRange_eq]
  rw [show List.range' 44 508 = 44 :: List.range' 45 507 from rfl]
  apply foldl_bestlag_fixed
  intro i _
  rw [autocorrAt_zero (window_zero (by simp [zeroSegment])),
    autocorrAt_zero (window_zero (by simp [zeroSegment]))]

/-! ### Digital silence (claim C8) -/

/-- Every per-channel read of an all-zero buffer is zero. -/
lemma channel_read_zero {b : AudioBuffer}
    (hzero : ∀ ch ∈ b.channels, ∀ s ∈ ch, s = (0 : ℝ)) (channel i : ℕ) :
    (b.channels.getD channel []).getD i 0 = 0 := by
  rcases lt_or_ge channel b.channels.length with h | h
  · apply getD_zero_of_forall_zero
    have hmem : b.channels.getD channel [] ∈ b.channels := by
      rw [List.getD_eq_getElem _ _ h]
      exact List.getElem_mem h
    exact hzero _ hmem
  · rw [List.getD_eq_default _ _ h]
    rfl

/-- Downmixing a digital-silence buffer yields an all-zero mono signal. -/
lemma convertToMono_zero {b : AudioBuffer}
    (hzero : ∀ ch ∈ b.channels, ∀ s ∈ ch, s = (0 : ℝ)) :
    ∀ s ∈ convertToMono b, s = 0 := by
  intro s hs
  rw [convertToMono] at hs
  split at hs
  · cases hch : b.channels with
    | nil => rw [hch] at hs; exact absurd hs (List.not_mem_nil s)
    | cons c cs =>
      rw [hch] at hs
      exact hzero c (by rw [hch]; exact List.mem_cons_self c cs) s hs
  · obtain ⟨i, _, rfl⟩ := List.mem_map.mp hs
    have hsum :
        ((List.range b.numberOfChannels).map
          (fun channel => (b.channels.getD channel []).getD i 0)).sum = 0 := by
      apply List.sum_eq_zero
      intro x hx
      obtain ⟨ch, _, rfl⟩ := List.mem_map.mp hx
      exact channel_read_zero hzero ch i
    rw [hsum, zero_div]

/-- Claim C8: `analyzeAudio` on a digital-silence buffer (well-formed channel
lengths, every sample zero) yields empty `rawPitchData`, `simpleNotes` and
`complexChords`. -/
theorem c8_theorem (audioBuffer : AudioBuffer)
    (hzero : ∀ ch ∈ audioBuffer.channels, ∀ s ∈ ch, s = (0 : ℝ)) :
    (analyzeAudio audioBuffer).rawPitchData = [] ∧
      (analyzeAudio audioBuffer).simpleNotes = [] ∧
      (analyzeAudio audioBuffer).complexChords = [] := by
  have hmono := convertToMono_zero hzero
  have hsegzero : ∀ seg ∈ segmentAudio (convertToMono audioBuffer), ∀ s ∈ seg, s = 0 := by
    intro seg hseg s hs
    rw [segmentAudio_eq] at hseg
    obtain ⟨k, _, rfl⟩ := List.mem_map.mp hseg
    exact hmono s (List.mem_of_mem_drop (List.mem_of_mem_take hs))
  have hsamples : perSegmentSamples (segmentAudio (convertToMono audioBuffer)) = [] := by
    rw [perSegmentSamples, List.filterMap_eq_nil_iff]
    intro p hp
    have hmem : p.2 ∈ segmentAudio (convertToMono audioBuffer) :=
      List.getElem?_mem (List.mem_enum_iff_getElem?.mp hp)
    have hfreq : detectPitchAutocorrelation p.2 = 0 :=
      detect_zero_of_all_zero (hsegzero p.2 hmem)
    simp only [hfreq]
    rw [if_neg]
    norm_num [minFrequencyHz]
  have hpitches : detectPitches (segmentAudio (convertToMono audioBuffer)) = [] := by
    rw [detectPitches, hsamples]
    rfl
  rw [analyzeAudio, hpitches]
  refine ⟨rfl, rfl, ?_⟩
  simp [convertToMusicalNotation, detectChords, List.insertionSort]

/-- Claim C8, witness: a one-channel single-zero-sample buffer is silent and
analyzes to the empty transcription. -/
theorem c8_witness :
    (∀ ch ∈ c8buffer.channels, ∀ s ∈ ch, s = (0 : ℝ)) ∧
      (analyzeAudio c8buffer).rawPitchData = [] ∧
      (analyzeAudio c8buffer).simpleNotes = [] ∧
      (analyzeAudio c8buffer).complexChords = [] := by
  have h : ∀ ch ∈ c8buffer.channels, ∀ s ∈ ch, s = (0 : ℝ) := by
    simp [c8buffer]
  exact ⟨h, c8_theorem c8buffer h⟩

/-! ### The note mapper at A4 (claim C1) -/

/-- Claim C1: at exactly 440 Hz (`k = 0`), the code returns note name `F#`
(octave 4, 0 cents) instead of `A` — the C-first pitch-class index
`(semitonesFromA4 + 9) mod 12` is looked up in the A-first `noteNames` table,
contradicting the source comment "A4 is at index 0 in the noteNames array". -/
theorem c1_theorem :
    (frequencyToNote 440).name = "F#" ∧ (frequencyToNote 440).octave = 4 ∧
      (frequencyToNote 440).cents = 0 ∧ ("F#" : String) ≠ "A" := by
  have hsemi : round ((12 : ℝ) * Real.logb 2 ((440 : ℝ) / 440)) = 0 := by norm_num
  refine ⟨?_, ?_, ?_, by decide⟩
  · simp only [frequencyToNote, hsemi]
    decide
  · simp only [frequencyToNote, hsemi]
    decide
  · simp only [frequencyToNote, hsemi]
    norm_num

/-! ### Malformed buffers (claim C5) -/

/-- Any buffer whose mono downmix is shorter than a segment analyzes to the
empty, well-formed transcription. -/
lemma analyzeAudio_short (b : AudioBuffer) (h : (convertToMono b).length ≤ segmentLength) :
    analyzeAudio b = emptyResult := by
  have hseg : segmentAudio (convertToMono b) = [] := by
    rw [segmentAudio_eq]
    have : numSegments (convertToMono b).length = 0 := by
      simp only [segmentLength, bufferSize] at h
      simp only [numSegments, segmentLength, overlap, bufferSize]
      omega
    rw [this, List.range_zero, List.map_nil]
  rw [analyzeAudio, hseg]
  have hpitches : detectPitches [] = [] := rfl
  rw [hpitches, emptyResult]
  simp [convertToMusicalNotation, detectChords, generateSimpleNotes,
    generateSheetMusic, List.insertionSort]

/-- Claim C5: the code contains no channel-length validation.  On a buffer
with inconsistent channel lengths (4 and 8 samples, declared length 4) it
silently truncates the longer channel to the declared length and returns the
well-formed empty `TranscriptionResult` — the very value produced for a
valid digital-silence buffer — instead of failing with an invalid-input
error. -/
theorem c5_theorem :
    c5buffer.channels.map List.length = [4, 8] ∧
      analyzeAudio c5buffer = emptyResult ∧
      analyzeAudio c5buffer = analyzeAudio c8buffer := by
  have hlen5 : (convertToMono c5buffer).length = 4 := by
    rw [convertToMono, if_neg (by norm_num [c5buffer])]
    simp [c5buffer]
  have h5 : analyzeAudio c5buffer = emptyResult :=
    analyzeAudio_short c5buffer (by rw [hlen5]; norm_num [segmentLength, bufferSize])
  have hlen8 : (convertToMono c8buffer).length = 1 := by
    rw [convertToMono, if_pos (by norm_num [c8buffer])]
    simp [c8buffer]
  have h8 : analyzeAudio c8buffer = emptyResult :=
    analyzeAudio_short c8buffer (by rw [hlen8]; norm_num [segmentLength, bufferSize])
  exact ⟨by simp [c5buffer], h5, h5.trans h8.symm⟩

/-! ### Impulse-pair segments: slice reads, windows, autocorrelation -/

/-- Reading a fixed-size slice of a `range`-map. -/
lemma getD_slice (f : ℕ → ℝ) (len o t i : ℕ) :
    ((((List.range len).map f).drop o).take t).getD i 0 =
      if i < t ∧ o + i < len then f (o + i) else 0 := by
  have hlen : ((((List.range len).map f).drop o).take t).length = min t (len - o) := by
    simp
  by_cases h : i < t ∧ o + i < len
  · rw [if_pos h]
    rw [List.getD_eq_getElem _ _ (by rw [hlen]; omega)]
    rw [List.getElem_take, List.getElem_drop, List.getElem_map, List.getElem_range]
  · rw [if_neg h, List.getD_eq_default _ _ (by rw [hlen]; omega)]

/-- A sum of a `range`-map with a single non-vanishing index. -/
lemma sum_map_range_eq_single (f : ℕ → ℝ) (n j : ℕ) (hj : j < n)
    (h : ∀ i < n, i ≠ j → f i = 0) : ((List.range n).map f).sum = f j := by
  induction n with
  | zero => omega
  | succ n ih =>
    rw [List.range_succ, List.map_append, List.sum_append]
    by_cases hjn : j = n
    · subst hjn
      have hz : ((List.range j).map f).sum = 0 := by
        apply List.sum_eq_zero
        intro x hx
        obtain ⟨i, hi, rfl⟩ := List.mem_map.mp hx
        rw [List.mem_range] at hi
        exact h i (by omega) (by omega)
      rw [hz]
      simp
    · rw [ih (by omega) (fun i hi hij => h i (by omega) hij)]
      have hn : f n = 0 := h n (by omega) (Ne.symm hjn)
      simp [hn]

/-- The Hann coefficient is strictly positive away from the window edges. -/
lemma hannValue_pos {i : ℕ} (h1 : 1 ≤ i) (h2 : i ≤ 4094) :
    0 < hannValue 4096 i := by
  rw [hannValue]
  have hpi := Real.pi_pos
  set θ : ℝ := 2 * Real.pi * (i : ℝ) / ((4096 : ℕ) - 1) with hθ
  have hi1 : (1 : ℝ) ≤ (i : ℝ) := by exact_mod_cast h1
  have hi2 : (i : ℝ) ≤ 4094 := by exact_mod_cast h2
  have hden : ((4096 : ℕ) : ℝ) - 1 = 4095 := by norm_num
  have hθpos : 0 < θ := by
    rw [hθ, hden]
    positivity
  have hθlt : θ < 2 * Real.pi := by
    rw [hθ, hden, div_lt_iff₀ (by norm_num)]
    nlinarith
  have hne : Real.cos θ ≠ 1 := by
    intro hc
    have h0 := (Real.cos_eq_one_iff_of_lt_of_lt (by linarith) hθlt).mp hc
    linarith
  have hlt : Real.cos θ < 1 := lt_of_le_of_ne (Real.cos_le_one θ) hne
  nlinarith

/-- Hann-windowing a slice of an impulse signal whose in-window support is
exactly `{o + a, o + b}` reads `hann(a)`, `hann(b)` at `a`, `b` and `0`
elsewhere. -/
lemma window_impulse_pair (len o a b : ℕ) (s : List ℕ)
    (ho : o + segmentLength ≤ len)
    (hmem : ∀ j ∈ s, o ≤ j → j < o + segmentLength → j = o + a ∨ j = o + b)
    (ha : o + a ∈ s) (hb : o + b ∈ s) (hab : a < b) (hblt : b < segmentLength) :
    ∀ i, (applyHannWindow (((impulseSignal len s).drop o).take segmentLength)).getD i 0 =
      if i = a then hannValue segmentLength a
      else if i = b then hannValue segmentLength b
      else 0 := by
  intro i
  have hlen : (((impulseSignal len s).drop o).take segmentLength).length = segmentLength := by
    simp only [impulseSignal, List.length_take, List.length_drop, List.length_map,
      List.length_range]
    omega
  rw [applyHannWindow, getD_map_range, hlen]
  by_cases hi : i < segmentLength
  · rw [if_pos hi]
    rw [impulseSignal, getD_slice, if_pos ⟨hi, by omega⟩]
    by_cases h1 : i = a
    · subst h1
      rw [if_pos ha, one_mul, if_pos rfl]
    · by_cases h2 : i = b
      · subst h2
        rw [if_pos hb, one_mul, if_neg (by omega), if_pos rfl]
      · rw [if_neg, zero_mul, if_neg h1, if_neg h2]
        intro hmem'
        rcases hmem (o + i) hmem' (by omega) (by omega) with h | h
        · exact h1 (by omega)
        · exact h2 (by omega)
  · rw [if_neg hi, if_neg (by omega), if_neg (by omega)]

/-- Autocorrelation of a windowed buffer supported on exactly two points
`a < b`: zero at every positive lag other than `b - a`, and `va * vb` at
`b - a`. -/
lemma autocorr_support_pair (w : List ℝ) (a b : ℕ) (va vb : ℝ) (hab : a < b)
    (hb : b < bufferSize)
    (hw : ∀ i, w.getD i 0 = if i = a then va else if i = b then vb else 0) :
    (∀ lag, 0 < lag → lag ≠ b - a → autocorrAt w lag = 0) ∧
      autocorrAt w (b - a) = va * vb := by
  constructor
  · intro lag hl hne
    rw [autocorrAt]
    apply List.sum_eq_zero
    intro x hx
    obtain ⟨i, _, rfl⟩ := List.mem_map.mp hx
    rw [hw i, hw (i + lag)]
    by_cases h1 : i = a
    · subst h1
      rw [if_pos rfl, if_neg (by omega), if_neg (by omega), mul_zero]
    · rw [if_neg h1]
      by_cases h2 : i = b
      · subst h2
        rw [if_pos rfl, if_neg (by omega), if_neg (by omega), mul_zero]
      · rw [if_neg h2, zero_mul]
  · rw [autocorrAt]
    rw [sum_map_range_eq_single _ _ a (by omega) ?_]
    · rw [hw a, hw (a + (b - a)), if_pos rfl, if_neg (by omega)]
      rw [if_pos (by omega)]
    · intro i hi hne
      rw [hw i, hw (i + (b - a))]
      by_cases h2 : i = b
      · subst h2
        rw [if_neg (by omega), if_pos rfl, if_neg (by omega), if_neg (by omega), mul_zero]
      · rw [if_neg hne, if_neg h2, zero_mul]

/-- The pitch estimator on a segment whose windowed form is supported on
exactly two points at an in-window lag: the detected frequency is
`sampleRate / (b - a)`. -/
lemma detect_pair (seg : List ℝ) (a b : ℕ) (va vb : ℝ) (hab : a < b)
    (hbuf : b < bufferSize) (hva : 0 < va) (hvb : 0 < vb)
    (h44 : 44 ≤ b - a) (h551 : b - a < 552)
    (hw : ∀ i, (applyHannWindow seg).getD i 0 =
      if i = a then va else if i = b then vb else 0) :
    detectPitchAutocorrelation seg = (sampleRate : ℝ) / ((b - a : ℕ) : ℝ) := by
  obtain ⟨hzero, hat⟩ :=
    autocorr_support_pair (applyHannWindow seg) a b va vb hab hbuf hw
  have hmem : (b - a) ∈ lagSearchRange := by
    rw [lagSearchRange_eq, List.mem_range'_1]
    omega
  have hpos : 0 < autocorrAt (applyHannWindow seg) (b - a) := by
    rw [hat]; positivity
  have hle : ∀ i ∈ lagSearchRange,
      autocorrAt (applyHannWindow seg) i ≤ autocorrAt (applyHannWindow seg) (b - a) := by
    intro i hi
    by_cases h : i = b - a
    · rw [h]
    · rw [hzero i (by have := mem_lagSearchRange hi; omega) h]
      exact le_of_lt hpos
  have hfirst : ∀ i ∈ lagSearchRange, i < b - a →
      autocorrAt (applyHannWindow seg) i < autocorrAt (applyHannWindow seg) (b - a) := by
    intro i hi hlt
    rw [hzero i (by have := mem_lagSearchRange hi; omega) (by omega)]
    exact hpos
  have hloop : acLoop (autocorrAt (applyHannWindow seg)) =
      (autocorrAt (applyHannWindow seg) (b - a), ((b - a : ℕ) : ℤ)) :=
    foldl_first_max _ lagSearchRange (0, -1) (b - a) lagSearchRange_pairwise hmem
      hpos hle hfirst
  rw [detectPitchAutocorrelation]
  simp only [hloop]
  rw [if_pos (by exact_mod_cast (by omega : 0 < b - a))]
  norm_num

/-! ### Rounded-log2 note mapping at 441 Hz and 420 Hz -/

/-- `x < c^(1/n)` from `x^n < c`. -/
lemma lt_rpow_one_div {x c : ℝ} {n : ℕ} (hx : 0 ≤ x) (hn : 0 < n) (hc : 0 ≤ c)
    (h : x ^ n < c) : x < c ^ ((1 : ℝ) / (n : ℝ)) := by
  by_contra hcon
  push_neg at hcon
  have h2 : (c ^ ((1 : ℝ) / (n : ℝ))) ^ n ≤ x ^ n :=
    pow_le_pow_left₀ (by positivity) hcon n
  rw [← Real.rpow_natCast (c ^ ((1 : ℝ) / (n : ℝ))) n, ← Real.rpow_mul hc,
    one_div, inv_mul_cancel₀ (by exact_mod_cast hn.ne' : (n : ℝ) ≠ 0),
    Real.rpow_one] at h2
  linarith

/-- `c^(1/n) < x` from `c < x^n`. -/
lemma rpow_one_div_lt {x c : ℝ} {n : ℕ} (hx : 0 ≤ x) (hn : 0 < n) (hc : 0 ≤ c)
    (h : c < x ^ n) : c ^ ((1 : ℝ) / (n : ℝ)) < x := by
  by_contra hcon
  push_neg at hcon
  have h2 : x ^ n ≤ (c ^ ((1 : ℝ) / (n : ℝ))) ^ n :=
    pow_le_pow_left₀ hx hcon n
  rw [← Real.rpow_natCast (c ^ ((1 : ℝ) / (n : ℝ))) n, ← Real.rpow_mul hc,
    one_div, inv_mul_cancel₀ (by exact_mod_cast hn.ne' : (n : ℝ) ≠ 0),
    Real.rpow_one] at h2
  linarith

/-- `x ≤ c^(1/n)` from `x^n ≤ c`. -/
lemma le_rpow_one_div {x c : ℝ} {n : ℕ} (hx : 0 ≤ x) (hn : 0 < n) (hc : 0 ≤ c)
    (h : x ^ n ≤ c) : x ≤ c ^ ((1 : ℝ) / (n : ℝ)) := by
  by_contra hcon
  push_neg at hcon
  have h2 : (c ^ ((1 : ℝ) / (n : ℝ))) ^ n < x ^ n :=
    pow_lt_pow_left₀ hcon (by positivity) (by omega)
  rw [← Real.rpow_natCast (c ^ ((1 : ℝ) / (n : ℝ))) n, ← Real.rpow_mul hc,
    one_div, inv_mul_cancel₀ (by exact_mod_cast hn.ne' : (n : ℝ) ≠ 0),
    Real.rpow_one] at h2
  linarith

/-- 441 Hz rounds to 0 semitones from A4: `441/440 ∈ [2^(-1/24), 2^(1/24))`. -/
lemma semitones_441 : round ((12 : ℝ) * Real.logb 2 ((441 : ℝ) / 440)) = 0 := by
  have hx : (0 : ℝ) < 441 / 440 := by norm_num
  have hup : Real.logb 2 ((441 : ℝ) / 440) < 1 / 24 := by
    rw [Real.logb_lt_iff_lt_rpow (by norm_num) hx]
    have h24 : ((441 : ℝ) / 440) ^ (24 : ℕ) < 2 := by
      rw [div_pow, div_lt_iff₀ (by positivity)]
      norm_num
    have h := lt_rpow_one_div hx.le (by norm_num) (by norm_num) h24
    exact_mod_cast h
  have hlo : (0 : ℝ) ≤ Real.logb 2 ((441 : ℝ) / 440) :=
    Real.logb_nonneg (by norm_num) (by norm_num)
  rw [round_eq, Int.floor_eq_iff]
  constructor
  · push_cast; linarith
  · push_cast; linarith

/-- 420 Hz rounds to −1 semitone from A4: `420/440 ∈ [2^(-1/8), 2^(-1/24))`. -/
lemma semitones_420 : round ((12 : ℝ) * Real.logb 2 ((420 : ℝ) / 440)) = -1 := by
  have heq : (420 : ℝ) / 440 = ((440 : ℝ) / 420)⁻¹ := by norm_num
  have hy : (0 : ℝ) < 440 / 420 := by norm_num
  have hlog : Real.logb 2 ((420 : ℝ) / 440) = -Real.logb 2 ((440 : ℝ) / 420) := by
    rw [heq, Real.logb_inv]
  have hyl : 1 / 24 < Real.logb 2 ((440 : ℝ) / 420) := by
    rw [Real.lt_logb_iff_rpow_lt (by norm_num) hy]
    have h24 : (2 : ℝ) < ((440 : ℝ) / 420) ^ (24 : ℕ) := by
      rw [div_pow, lt_div_iff₀ (by positivity)]
      norm_num
    have h := rpow_one_div_lt hy.le (by norm_num) (by norm_num) h24
    exact_mod_cast h
  have hyu : Real.logb 2 ((440 : ℝ) / 420) ≤ 1 / 8 := by
    rw [Real.logb_le_iff_le_rpow (by norm_num) hy]
    have h8 : ((440 : ℝ) / 420) ^ (8 : ℕ) ≤ 2 := by
      rw [div_pow, div_le_iff₀ (by positivity)]
      norm_num
    have h := le_rpow_one_div hy.le (by norm_num) (by norm_num) h8
    exact_mod_cast h
  rw [hlog, round_eq, Int.floor_eq_iff]
  constructor
  · push_cast; linarith
  · push_cast; linarith

/-- The code's note record at 441 Hz: name `F#`, octave 4. -/
lemma note_441 : (frequencyToNote 441).name = "F#" ∧ (frequencyToNote 441).octave = 4 := by
  constructor
  · simp only [frequencyToNote, semitones_441]
    decide
  · simp only [frequencyToNote, semitones_441]
    decide

/-- The code's note record at 420 Hz: name `F`, octave 4. -/
lemma note_420 : (frequencyToNote 420).name = "F" ∧ (frequencyToNote 420).octave = 4 := by
  constructor
  · simp only [frequencyToNote, semitones_420]
    decide
  · simp only [frequencyToNote, semitones_420]
    decide

/-! ### Concrete analysis of the 6145-sample impulse buffers -/

/-- A 6145-sample signal yields exactly two segments, at offsets 0 and 2048. -/
lemma impulse_segments (s : List ℕ) :
    segmentAudio (impulseSignal 6145 s) =
      [((impulseSignal 6145 s).drop 0).take segmentLength,
       ((impulseSignal 6145 s).drop 2048).take segmentLength] := by
  rw [segmentAudio_eq]
  have hlen : (impulseSignal 6145 s).length = 6145 := by simp [impulseSignal]
  rw [hlen]
  have hnum : numSegments 6145 = 2 := by
    norm_num [numSegments, segmentLength, overlap, bufferSize]
  rw [hnum, show List.range 2 = [0, 1] from rfl]
  simp [overlap, segmentLength, bufferSize]

/-- Downmix of a one-channel impulse buffer. -/
lemma impulse_mono (s : List ℕ) :
    convertToMono ⟨1, 6145, [impulseSignal 6145 s]⟩ = impulseSignal 6145 s := by
  rw [convertToMono]
  rw [if_pos rfl]
  exact List.getD_cons_zero

/-- Window of segment 0 of the C3 buffer: support `{1, 101}`. -/
lemma c3_window0 : ∀ i,
    (applyHannWindow
      (((impulseSignal 6145 [1, 101, 4097, 4202]).drop 0).take segmentLength)).getD i 0 =
      if i = 1 then hannValue segmentLength 1
      else if i = 101 then hannValue segmentLength 101
      else 0 := by
  apply window_impulse_pair 6145 0 1 101 [1, 101, 4097, 4202]
  · norm_num [segmentLength, bufferSize]
  · intro j hj h0 h1
    simp only [segmentLength, bufferSize] at h1
    simp only [List.mem_cons, List.not_mem_nil, or_false] at hj
    rcases hj with rfl | rfl | rfl | rfl <;> omega
  · simp
  · simp
  · omega
  · norm_num [segmentLength, bufferSize]

/-- Window of segment 1 of the C3 buffer: support `{2049, 2154}` (absolute
`{4097, 4202}`). -/
lemma c3_window1 : ∀ i,
    (applyHannWindow
      (((impulseSignal 6145 [1, 101, 4097, 4202]).drop 2048).take segmentLength)).getD i 0 =
      if i = 2049 then hannValue segmentLength 2049
      else if i = 2154 then hannValue segmentLength 2154
      else 0 := by
  apply window_impulse_pair 6145 2048 2049 2154 [1, 101, 4097, 4202]
  · norm_num [segmentLength, bufferSize]
  · intro j hj h0 h1
    simp only [segmentLength, bufferSize] at h1
    simp only [List.mem_cons, List.not_mem_nil, or_false] at hj
    rcases hj with rfl | rfl | rfl | rfl <;> omega
  · simp
  · simp
  · omega
  · norm_num [segmentLength, bufferSize]

/-- Window of segment 1 of the C4 buffer: support `{2049, 2149}` (absolute
`{4097, 4197}`). -/
lemma c4_window1 : ∀ i,
    (applyHannWindow
      (((impulseSignal 6145 [1, 101, 4097, 4197]).drop 2048).take segmentLength)).getD i 0 =
      if i = 2049 then hannValue segmentLength 2049
      else if i = 2149 then hannValue segmentLength 2149
      else 0 := by
  apply window_impulse_pair 6145 2048 2049 2149 [1, 101, 4097, 4197]
  · norm_num [segmentLength, bufferSize]
  · intro j hj h0 h1
    simp only [segmentLength, bufferSize] at h1
    simp only [List.mem_cons, List.not_mem_nil, or_false] at hj
    rcases hj with rfl | rfl | rfl | rfl <;> omega
  · simp
  · simp
  · omega
  · norm_num [segmentLength, bufferSize]

/-- Window of segment 0 of the C4 buffer: also support `{1, 101}`. -/
lemma c4_window0 : ∀ i,
    (applyHannWindow
      (((impulseSignal 6145 [1, 101, 4097, 4197]).drop 0).take segmentLength)).getD i 0 =
      if i = 1 then hannValue segmentLength 1
      else if i = 101 then hannValue segmentLength 101
      else 0 := by
  apply window_impulse_pair 6145 0 1 101 [1, 101, 4097, 4197]
  · norm_num [segmentLength, bufferSize]
  · intro j hj h0 h1
    simp only [segmentLength, bufferSize] at h1
    simp only [List.mem_cons, List.not_mem_nil, or_false] at hj
    rcases hj with rfl | rfl | rfl | rfl <;> omega
  · simp
  · simp
  · omega
  · norm_num [segmentLength, bufferSize]

/-- Positivity of the four Hann coefficients used below. -/
lemma hann_pos_seg {i : ℕ} (h1 : 1 ≤ i) (h2 : i ≤ 4094) :
    0 < hannValue segmentLength i := by
  rw [show segmentLength = 4096 from rfl]
  exact hannValue_pos h1 h2

/-- Detected frequency of C3/C4 segment 0 (lag 100): 441 Hz. -/
lemma detect_lag100_low (s : List ℕ)
    (hw : ∀ i,
      (applyHannWindow (((impulseSignal 6145 s).drop 0).take segmentLength)).getD i 0 =
        if i = 1 then hannValue segmentLength 1
        else if i = 101 then hannValue segmentLength 101
        else 0) :
    detectPitchAutocorrelation (((impulseSignal 6145 s).drop 0).take segmentLength) = 441 := by
  have h := detect_pair _ 1 101 (hannValue segmentLength 1) (hannValue segmentLength 101)
    (by omega) (by norm_num [bufferSize]) (hann_pos_seg (by omega) (by omega))
    (hann_pos_seg (by omega) (by omega)) (by omega) (by omega) hw
  rw [h]
  norm_num [sampleRate]

/-- Detected frequency of C3 segment 1 (lag 105): 420 Hz. -/
lemma c3_detect1 :
    detectPitchAutocorrelation
      (((impulseSignal 6145 [1, 101, 4097, 4202]).drop 2048).take segmentLength) = 420 := by
  have h := detect_pair _ 2049 2154 (hannValue segmentLength 2049) (hannValue segmentLength 2154)
    (by omega) (by norm_num [bufferSize]) (hann_pos_seg (by omega) (by omega))
    (hann_pos_seg (by omega) (by omega)) (by omega) (by omega) c3_window1
  rw [h]
  norm_num [sampleRate]

/-- Detected frequency of C4 segment 1 (lag 100): 441 Hz. -/
lemma c4_detect1 :
    detectPitchAutocorrelation
      (((impulseSignal 6145 [1, 101, 4097, 4197]).drop 2048).take segmentLength) = 441 := by
  have h := detect_pair _ 2049 2149 (hannValue segmentLength 2049) (hannValue segmentLength 2149)
    (by omega) (by norm_num [bufferSize]) (hann_pos_seg (by omega) (by omega))
    (hann_pos_seg (by omega) (by omega)) (by omega) (by omega) c4_window1
  rw [h]
  norm_num [sampleRate]

/-- `perSegmentSamples` on two in-range segments: one `PitchSample` each, at
the 50%-overlap times `[0, d]` and `[d/2, 3d/2]`. -/
lemma perSegment_pair (seg0 seg1 : List ℝ) (f0 f1 : ℝ)
    (h0 : detectPitchAutocorrelation seg0 = f0)
    (h1 : detectPitchAutocorrelation seg1 = f1)
    (hr0 : (minFrequencyHz : ℝ) ≤ f0 ∧ f0 ≤ (maxFrequencyHz : ℝ))
    (hr1 : (minFrequencyHz : ℝ) ≤ f1 ∧ f1 ≤ (maxFrequencyHz : ℝ)) :
    perSegmentSamples [seg0, seg1] =
      [⟨f0, frequencyToNote f0, 0, segmentDuration⟩,
       ⟨f1, frequencyToNote f1, segmentDuration / 2,
        segmentDuration / 2 + segmentDuration⟩] := by
  have e0 :
      (fun (p : ℕ × List ℝ) =>
        if (minFrequencyHz : ℝ) ≤ detectPitchAutocorrelation p.2 ∧
            detectPitchAutocorrelation p.2 ≤ (maxFrequencyHz : ℝ) then
          some (⟨detectPitchAutocorrelation p.2,
                 frequencyToNote (detectPitchAutocorrelation p.2),
                 (p.1 : ℝ) * segmentDuration * 0.5,
                 (p.1 : ℝ) * segmentDuration * 0.5 + segmentDuration⟩ : PitchSample)
        else none) (0, seg0) =
        some ⟨f0, frequencyToNote f0, 0, segmentDuration⟩ := by
    simp only [h0]
    rw [if_pos hr0]
    norm_num
  have e1 :
      (fun (p : ℕ × List ℝ) =>
        if (minFrequencyHz : ℝ) ≤ detectPitchAutocorrelation p.2 ∧
            detectPitchAutocorrelation p.2 ≤ (maxFrequencyHz : ℝ) then
          some (⟨detectPitchAutocorrelation p.2,
                 frequencyToNote (detectPitchAutocorrelation p.2),
                 (p.1 : ℝ) * segmentDuration * 0.5,
                 (p.1 : ℝ) * segmentDuration * 0.5 + segmentDuration⟩ : PitchSample)
        else none) (1, seg1) =
        some ⟨f1, frequencyToNote f1, segmentDuration / 2,
          segmentDuration / 2 + segmentDuration⟩ := by
    simp only [h1]
    rw [if_pos hr1]
    norm_num
    ring
  have key : ∀ (F : ℕ × List ℝ → Option PitchSample) (x y : ℕ × List ℝ)
      (b0 b1 : PitchSample), F x = some b0 → F y = some b1 →
      List.filterMap F [x, y] = [b0, b1] := by
    intro F x y b0 b1 hx hy
    rw [List.filterMap_cons_some hx, List.filterMap_cons_some hy, List.filterMap_nil]
  rw [perSegmentSamples]
  rw [show ([seg0, seg1].enum) = [(0, seg0), (1, seg1)] from rfl]
  exact key _ _ _ _ _ e0 e1

/-- Consolidation keeps the two C3 samples separate: 441 Hz is F♯4 but
420 Hz is F4, so the name test fails. -/
lemma c3_consolidate :
    consolidateNotes
      [⟨441, frequencyToNote 441, 0, segmentDuration⟩,
       ⟨420, frequencyToNote 420, segmentDuration / 2,
        segmentDuration / 2 + segmentDuration⟩] =
      [⟨441, frequencyToNote 441, 0, segmentDuration⟩,
       ⟨420, frequencyToNote 420, segmentDuration / 2,
        segmentDuration / 2 + segmentDuration⟩] := by
  simp only [consolidateNotes, consolidateLoop]
  rw [if_neg]
  rintro ⟨hname, -⟩
  rw [note_420.1, note_441.1] at hname
  exact absurd hname (by decide)

/-- Consolidation merges the two C4 samples (identical note, 46 ms gap). -/
lemma c4_consolidate :
    consolidateNotes
      [⟨441, frequencyToNote 441, 0, segmentDuration⟩,
       ⟨441, frequencyToNote 441, segmentDuration / 2,
        segmentDuration / 2 + segmentDuration⟩] =
      [⟨441, frequencyToNote 441, 0, segmentDuration / 2 + segmentDuration⟩] := by
  simp only [consolidateNotes, consolidateLoop]
  rw [if_pos]
  refine ⟨rfl, rfl, ?_⟩
  have h : segmentDuration / 2 - segmentDuration = -(segmentDuration / 2) := by ring
  rw [h, abs_neg, abs_of_nonneg (by norm_num [segmentDuration, bufferSize, sampleRate])]
  norm_num [segmentDuration, bufferSize, sampleRate]

/-- Raw pitch data of the C3 buffer: the two unmerged samples. -/
lemma c3_raw :
    (analyzeAudio c3buffer).rawPitchData =
      [⟨441, frequencyToNote 441, 0, segmentDuration⟩,
       ⟨420, frequencyToNote 420, segmentDuration / 2,
        segmentDuration / 2 + segmentDuration⟩] := by
  rw [analyzeAudio, show c3buffer = ⟨1, 6145, [impulseSignal 6145 [1, 101, 4097, 4202]]⟩
    from rfl]
  rw [impulse_mono, impulse_segments, detectPitches]
  rw [perSegment_pair _ _ 441 420 (detect_lag100_low _ c3_window0) c3_detect1
    (by norm_num [minFrequencyHz, maxFrequencyHz])
    (by norm_num [minFrequencyHz, maxFrequencyHz])]
  rw [c3_consolidate]
  rfl

/-- Raw pitch data of the C4 buffer: a single merged sample. -/
lemma c4_raw :
    (analyzeAudio c4buffer).rawPitchData =
      [⟨441, frequencyToNote 441, 0, segmentDuration / 2 + segmentDuration⟩] := by
  rw [analyzeAudio, show c4buffer = ⟨1, 6145, [impulseSignal 6145 [1, 101, 4097, 4197]]⟩
    from rfl]
  rw [impulse_mono, impulse_segments, detectPitches]
  rw [perSegment_pair _ _ 441 441 (detect_lag100_low _ c4_window0) c4_detect1
    (by norm_num [minFrequencyHz, maxFrequencyHz])
    (by norm_num [minFrequencyHz, maxFrequencyHz])]
  rw [c4_consolidate]
  rfl

/-- For every buffer, the simple-note view is computed from the raw pitch
data of the same result. -/
lemma analyzeAudio_simpleNotes (b : AudioBuffer) :
    (analyzeAudio b).simpleNotes = generateSimpleNotes ((analyzeAudio b).rawPitchData) := rfl

/-- Claim C3, counterexample: on the C3 impulse buffer the two simple notes
occupy `[0, d]` and `[d/2, 3d/2]` (`d` = one segment duration) — adjacent
differing notes from 50%-overlapping segments overlap in time, so the claimed
no-overlap invariant is false of `analyzeAudio`'s output. -/
theorem c3_counterexample : ¬ timingInvariant (analyzeAudio c3buffer) := by
  intro hinv
  have hs : (analyzeAudio c3buffer).simpleNotes =
      generateSimpleNotes ((analyzeAudio c3buffer).rawPitchData) :=
    analyzeAudio_simpleNotes c3buffer
  rw [c3_raw] at hs
  obtain ⟨-, -, -, -, -, -, -, hdisj, -⟩ := hinv
  rw [hs, generateSimpleNotes] at hdisj
  simp only [List.map_cons, List.map_nil] at hdisj
  rw [List.pairwise_cons] at hdisj
  have hd := hdisj.1 _ (List.mem_cons_self _ _)
  simp only [intervalsDisjoint] at hd
  rcases hd with h | h <;>
    (rw [segmentDuration] at h;
     norm_num [bufferSize, sampleRate] at h)

/-- Claim C4, counterexample: on the C4 impulse buffer two segments are
in-range (two per-segment samples), yet `rawPitchData` holds only the single
*consolidated* note — `rawPitchData` is the merged sequence, not one sample
per in-range segment. -/
theorem c4_counterexample :
    (analyzeAudio c4buffer).rawPitchData ≠
        perSegmentSamples (segmentAudio (convertToMono c4buffer)) ∧
      (perSegmentSamples (segmentAudio (convertToMono c4buffer))).length = 2 ∧
      (analyzeAudio c4buffer).rawPitchData.length = 1 := by
  have hper : perSegmentSamples (segmentAudio (convertToMono c4buffer)) =
      [⟨441, frequencyToNote 441, 0, segmentDuration⟩,
       ⟨441, frequencyToNote 441, segmentDuration / 2,
        segmentDuration / 2 + segmentDuration⟩] := by
    rw [show c4buffer = ⟨1, 6145, [impulseSignal 6145 [1, 101, 4097, 4197]]⟩ from rfl]
    rw [impulse_mono, impulse_segments]
    exact perSegment_pair _ _ 441 441 (detect_lag100_low _ c4_window0) c4_detect1
      (by norm_num [minFrequencyHz, maxFrequencyHz])
      (by norm_num [minFrequencyHz, maxFrequencyHz])
  refine ⟨?_, ?_, ?_⟩
  · rw [c4_raw, hper]
    intro h
    have := congrArg List.length h
    simp at this
  · rw [hper]; rfl
  · rw [c4_raw]; rfl

/-! ### Ordering invariants of the pipeline (claims C3, C4) -/

/-- Indices in `enumFrom n` are at least `n`. -/
lemma fst_le_of_mem_enumFrom {α : Type} :
    ∀ (l : List α) (n : ℕ) (p : ℕ × α), p ∈ l.enumFrom n → n ≤ p.1 := by
  intro l
  induction l with
  | nil => intro n p h; exact absurd h (List.not_mem_nil p)
  | cons a t ih =>
    intro n p h
    rcases List.mem_cons.mp h with rfl | h'
    · exact le_refl n
    · exact (Nat.le_succ n).trans (ih (n + 1) p h')

/-- `enumFrom` indices are strictly increasing. -/
lemma pairwise_fst_lt_enumFrom {α : Type} :
    ∀ (l : List α) (n : ℕ), List.Pairwise (fun p q => p.1 < q.1) (l.enumFrom n) := by
  intro l
  induction l with
  | nil => intro n; exact List.Pairwise.nil
  | cons a t ih =>
    intro n
    rw [List.enumFrom_cons, List.pairwise_cons]
    exact ⟨fun q hq => lt_of_lt_of_le (Nat.lt_succ_self n)
      (fst_le_of_mem_enumFrom t (n + 1) q hq), ih (n + 1)⟩

/-- `enum` indices are strictly increasing. -/
lemma pairwise_fst_lt_enum {α : Type} (l : List α) :
    List.Pairwise (fun p q => p.1 < q.1) l.enum :=
  pairwise_fst_lt_enumFrom l 0

/-- Per-segment samples are ordered by `startTime` and have
`startTime ≤ endTime`. -/
lemma perSegment_ordered (segments : List (List ℝ)) :
    List.Pairwise (fun a b => a.startTime ≤ b.startTime) (perSegmentSamples segments) ∧
      (perSegmentSamples segments).Forall (fun p => p.startTime ≤ p.endTime) := by
  have hd : (0 : ℝ) ≤ segmentDuration := by
    norm_num [segmentDuration, bufferSize, sampleRate]
  constructor
  · rw [perSegmentSamples]
    apply List.Pairwise.filterMap _ ?_ (pairwise_fst_lt_enum segments)
    intro a b hab x hx y hy
    beta_reduce at hx hy
    split at hx
    · split at hy
      · rw [Option.mem_some_iff] at hx hy
        rw [← hx, ← hy]
        have hcast : ((a.1 : ℝ)) ≤ (b.1 : ℝ) := by exact_mod_cast hab.le
        exact mul_le_mul_of_nonneg_right
          (mul_le_mul_of_nonneg_right hcast hd) (by norm_num)
      · exact absurd hy (by simp)
    · exact absurd hx (by simp)
  · rw [List.forall_iff_forall_mem]
    intro p hp
    rw [perSegmentSamples] at hp
    obtain ⟨x, -, hx⟩ := List.mem_filterMap.mp hp
    split at hx
    · simp only [Option.some.injEq] at hx
      rw [← hx]
      simp only
      linarith
    · exact absurd hx (by simp)

/-- The consolidation loop preserves `startTime ≤ endTime`, the `startTime`
ordering, and the lower bound by the running note's start. -/
lemma consolidateLoop_ordered :
    ∀ (rest : List PitchSample) (cur : PitchSample),
      cur.startTime ≤ cur.endTime →
      (∀ x ∈ rest, cur.startTime ≤ x.startTime) →
      List.Pairwise (fun a b => a.startTime ≤ b.startTime) rest →
      rest.Forall (fun p => p.startTime ≤ p.endTime) →
      (consolidateLoop cur rest).Forall (fun p => p.startTime ≤ p.endTime) ∧
        List.Pairwise (fun a b => a.startTime ≤ b.startTime) (consolidateLoop cur rest) ∧
        ∀ z ∈ consolidateLoop cur rest, cur.startTime ≤ z.startTime := by
  intro rest
  induction rest with
  | nil =>
    intro cur hse _ _ _
    refine ⟨?_, List.pairwise_singleton _ _, ?_⟩
    · rw [consolidateLoop, List.forall_cons]
      exact ⟨hse, trivial⟩
    · intro z hz
      rw [consolidateLoop] at hz
      rcases List.mem_singleton.mp hz with rfl
      exact le_refl _
  | cons note rest ih =>
    intro cur hse hcur hpw hF
    rw [List.pairwise_cons] at hpw
    rw [List.forall_cons] at hF
    rw [consolidateLoop]
    by_cases hm : extendsCurrent cur note
    · rw [if_pos hm]
      have hse' : cur.startTime ≤ note.endTime :=
        (hcur note (List.mem_cons_self _ _)).trans hF.1
      exact ih { cur with endTime := note.endTime } hse'
        (fun x hx => hcur x (List.mem_cons_of_mem _ hx)) hpw.2 hF.2
    · rw [if_neg hm]
      obtain ⟨F', P', Z'⟩ := ih note hF.1 hpw.1 hpw.2 hF.2
      refine ⟨?_, ?_, ?_⟩
      · rw [List.forall_cons]
        exact ⟨hse, F'⟩
      · rw [List.pairwise_cons]
        exact ⟨fun z hz => (hcur note (List.mem_cons_self _ _)).trans (Z' z hz), P'⟩
      · intro z hz
        rcases List.mem_cons.mp hz with rfl | hz'
        · exact le_refl _
        · exact (hcur note (List.mem_cons_self _ _)).trans (Z' z hz')

/-- `consolidateNotes` preserves timing order and `startTime ≤ endTime`. -/
lemma consolidateNotes_ordered (l : List PitchSample)
    (hpw : List.Pairwise (fun a b => a.startTime ≤ b.startTime) l)
    (hF : l.Forall (fun p => p.startTime ≤ p.endTime)) :
    (consolidateNotes l).Forall (fun p => p.startTime ≤ p.endTime) ∧
      List.Pairwise (fun a b => a.startTime ≤ b.startTime) (consolidateNotes l) := by
  cases l with
  | nil => exact ⟨trivial, List.Pairwise.nil⟩
  | cons n rest =>
    rw [List.pairwise_cons] at hpw
    rw [List.forall_cons] at hF
    rw [consolidateNotes]
    obtain ⟨F', P', -⟩ := consolidateLoop_ordered rest n hF.1 hpw.1 hpw.2 hF.2
    exact ⟨F', P'⟩

/-- `foldl min` is bounded by its initial value. -/
lemma foldl_min_le (l : List ℝ) : ∀ a : ℝ, l.foldl min a ≤ a := by
  induction l with
  | nil => intro a; exact le_refl a
  | cons x t ih =>
    intro a
    rw [List.foldl_cons]
    exact (ih (min a x)).trans (min_le_left a x)

/-- `foldl min` keeps any common lower bound. -/
lemma le_foldl_min (l : List ℝ) :
    ∀ (a lo : ℝ), lo ≤ a → (∀ x ∈ l, lo ≤ x) → lo ≤ l.foldl min a := by
  induction l with
  | nil => intro a lo h _; exact h
  | cons x t ih =>
    intro a lo ha hl
    rw [List.foldl_cons]
    exact ih _ lo (le_min ha (hl x (List.mem_cons_self _ _)))
      (fun y hy => hl y (List.mem_cons_of_mem _ hy))

/-- `foldl max` dominates its initial value. -/
lemma le_foldl_max (l : List ℝ) : ∀ a : ℝ, a ≤ l.foldl max a := by
  induction l with
  | nil => intro a; exact le_refl a
  | cons x t ih =>
    intro a
    rw [List.foldl_cons]
    exact (le_max_left a x).trans (ih (max a x))

/-- A chord built from a bucket whose members all carry window key `k` has
`startTime ≤ endTime` and `startTime ∈ [k·timeWindow, (k+1)·timeWindow)`. -/
lemma chordOfWindow_facts (k : ℤ) (notes : List PitchSample) (c : Chord)
    (hF : notes.Forall (fun p => p.startTime ≤ p.endTime))
    (hk : ∀ p ∈ notes, windowKey p = k)
    (h : chordOfWindow notes = some c) :
    c.startTime ≤ c.endTime ∧
      (k : ℝ) * timeWindow ≤ c.startTime ∧
      c.startTime < ((k : ℝ) + 1) * timeWindow := by
  have htw : (0 : ℝ) < timeWindow := by norm_num [timeWindow]
  have hbound : ∀ p ∈ notes,
      (k : ℝ) * timeWindow ≤ p.startTime ∧ p.startTime < ((k : ℝ) + 1) * timeWindow := by
    intro p hp
    have hkey := hk p hp
    rw [windowKey] at hkey
    have hfl := Int.floor_eq_iff.mp hkey
    constructor
    · calc (k : ℝ) * timeWindow ≤ p.startTime / timeWindow * timeWindow := by
            exact mul_le_mul_of_nonneg_right hfl.1 htw.le
        _ = p.startTime := by field_simp
    · calc p.startTime = p.startTime / timeWindow * timeWindow := by field_simp
        _ < ((k : ℝ) + 1) * timeWindow := by
            apply mul_lt_mul_of_pos_right _ htw
            exact_mod_cast hfl.2
  cases notes with
  | nil => exact absurd h (by simp [chordOfWindow])
  | cons n ns =>
    rw [chordOfWindow] at h
    by_cases hlen : 2 ≤ (n :: ns).length
    · rw [if_pos hlen] at h
      simp only at h
      cases hic : identifyChord (dedupFirst ((n :: ns).map fun p => p.note.name)) with
      | none => rw [hic] at h; exact absurd h (by simp)
      | some chord =>
        rw [hic] at h
        simp only [Option.some.injEq] at h
        have hstart : c.startTime = (ns.map (fun p => p.startTime)).foldl min n.startTime := by
          rw [← h]
        have hend : c.endTime = (ns.map (fun p => p.endTime)).foldl max n.endTime := by
          rw [← h]
        rw [List.forall_cons] at hF
        refine ⟨?_, ?_, ?_⟩
        · rw [hstart, hend]
          calc (ns.map (fun p => p.startTime)).foldl min n.startTime
              ≤ n.startTime := foldl_min_le _ _
            _ ≤ n.endTime := hF.1
            _ ≤ (ns.map (fun p => p.endTime)).foldl max n.endTime := le_foldl_max _ _
        · rw [hstart]
          apply le_foldl_min
          · exact (hbound n (List.mem_cons_self _ _)).1
          · intro x hx
            obtain ⟨p, hp, rfl⟩ := List.mem_map.mp hx
            exact (hbound p (List.mem_cons_of_mem _ hp)).1
        · rw [hstart]
          exact lt_of_le_of_lt (foldl_min_le _ _) (hbound n (List.mem_cons_self _ _)).2
    · rw [if_neg hlen] at h
      exact absurd h (by simp)

/-- `detectChords` output: every chord has `startTime ≤ endTime`, and chords
from later (ascending) window keys start no earlier. -/
lemma detectChords_ordered (pd : List PitchSample)
    (hF : pd.Forall (fun p => p.startTime ≤ p.endTime)) :
    (detectChords pd).Forall (fun c => c.startTime ≤ c.endTime) ∧
      List.Pairwise (fun a b => a.startTime ≤ b.startTime) (detectChords pd) := by
  have hkeys : List.Pairwise (· < ·)
      (List.insertionSort (· ≤ ·) (pd.map windowKey).dedup) := by
    have hsorted := List.sorted_insertionSort (α := ℤ) (· ≤ ·) (pd.map windowKey).dedup
    have hnodup : (List.insertionSort (· ≤ ·) (pd.map windowKey).dedup).Nodup :=
      (List.perm_insertionSort (· ≤ ·) (pd.map windowKey).dedup).nodup_iff.mpr
        (List.nodup_dedup _)
    exact (hsorted.and hnodup).imp (fun h => lt_of_le_of_ne h.1 h.2)
  have hbucket : ∀ (key : ℤ) (c : Chord),
      chordOfWindow (pd.filter (fun p => decide (windowKey p = key))) = some c →
      c.startTime ≤ c.endTime ∧
        (key : ℝ) * timeWindow ≤ c.startTime ∧
        c.startTime < ((key : ℝ) + 1) * timeWindow := by
    intro key c hc
    apply chordOfWindow_facts key _ c ?_ ?_ hc
    · rw [List.forall_iff_forall_mem] at hF ⊢
      exact fun p hp => hF p (List.filter_subset' pd hp)
    · intro p hp
      have := List.of_mem_filter hp
      simpa using this
  constructor
  · rw [detectChords, List.forall_iff_forall_mem]
    intro c hc
    obtain ⟨key, -, hcw⟩ := List.mem_filterMap.mp hc
    exact (hbucket key c hcw).1
  · rw [detectChords]
    apply List.Pairwise.filterMap _ ?_ hkeys
    intro a b hab x hx y hy
    have hxf := hbucket a x hx
    have hyf := hbucket b y hy
    have hab' : ((a : ℝ) + 1) ≤ (b : ℝ) := by exact_mod_cast hab
    have htw : (0 : ℝ) ≤ timeWindow := by norm_num [timeWindow]
    have hmid : ((a : ℝ) + 1) * timeWindow ≤ (b : ℝ) * timeWindow :=
      mul_le_mul_of_nonneg_right hab' htw
    linarith [hxf.2.2, hyf.2.1]

/-- Claim C3, amended: in every `TranscriptionResult` produced by
`analyzeAudio`, every timed entity satisfies `startTime ≤ endTime`
(durations are nonnegative) and every output sequence is ordered by
`startTime` non-decreasing.  The claim's further no-overlap property does
**not** hold (see the counterexample): 50%-overlapping segments make
adjacent differing simple notes overlap, and a chord window's `endTime` can
spill past the next window's start. -/
theorem c3_theorem (audioBuffer : AudioBuffer) :
    orderedInvariant (analyzeAudio audioBuffer) := by
  obtain ⟨hpw0, hF0⟩ := perSegment_ordered (segmentAudio (convertToMono audioBuffer))
  obtain ⟨hF, hpw⟩ := consolidateNotes_ordered _ hpw0 hF0
  obtain ⟨hcF, hcpw⟩ := detectChords_ordered _ hF
  refine ⟨hF, ?_, hcF, hpw, ?_, hcpw, ?_⟩
  · show (generateSimpleNotes _).Forall _
    rw [generateSimpleNotes, List.forall_iff_forall_mem]
    intro n hn
    obtain ⟨p, hp, rfl⟩ := List.mem_map.mp hn
    rw [List.forall_iff_forall_mem] at hF
    have := hF p hp
    simp only
    linarith
  · show List.Pairwise _ (generateSimpleNotes _)
    rw [generateSimpleNotes, List.pairwise_map]
    exact hpw.imp (fun h => h)
  · show List.Pairwise _ (generateSheetMusic _).notes
    rw [generateSheetMusic]
    simp only
    rw [List.pairwise_map]
    exact hpw.imp (fun h => h)

set_option maxRecDepth 4000 in
/-- Claim C4, amended: `rawPitchData` is the **consolidated** note sequence —
`detectPitches` consolidates before `convertToMusicalNotation` stores it —
built from the per-segment samples, of which there is exactly one per segment
whose detected frequency lies in `[minFrequency, maxFrequency]` (out-of-range
segments contribute nothing). -/
theorem c4_theorem (audioBuffer : AudioBuffer) :
    (analyzeAudio audioBuffer).rawPitchData =
      consolidateNotes (perSegmentSamples (segmentAudio (convertToMono audioBuffer))) ∧
      (perSegmentSamples (segmentAudio (convertToMono audioBuffer))).Forall
        (fun p => (minFrequencyHz : ℝ) ≤ p.frequency ∧
          p.frequency ≤ (maxFrequencyHz : ℝ)) := by
  refine ⟨rfl, ?_⟩
  rw [List.forall_iff_forall_mem]
  intro p hp
  rw [perSegmentSamples] at hp
  obtain ⟨x, -, hx⟩ := List.mem_filterMap.mp hp
  split at hx
  · rename_i hcond
    have hx2 := Option.some.inj hx
    rw [← hx2]
    exact hcond
  · exact absurd hx (by simp)

end PitchDetection
